/-
Verification of the reconfigurable-precision synthesis core.

The Python sources (`axpy/helper.py`, `axpy/scenario.py`, `axpy/circuit.py`,
`axpy/reconf/reconf.py`) are shallowly embedded below.  Python dictionaries
(insertion-ordered, string/int keyed) are modelled as association lists with
explicit `dictSet` / `dictGet` / `dictDel` operations reproducing Python's
update-in-place / append-at-end semantics.  Python floats are modelled as
rationals.  The external Design Compiler invocation (`_call_dc`) is modelled
as an oracle function from the cumulative scenario list to a power vector and
a compliance flag, following the backend interface; filesystem side effects
are recorded in an explicit effect trace.
-/
import Mathlib

namespace Axpy

/-! ### Python dictionaries as association lists -/

def dictHas {K V : Type} [DecidableEq K] (d : List (K × V)) (k : K) : Bool :=
  d.any (fun p => decide (p.1 = k))

def dictGet {K V : Type} [DecidableEq K] (d : List (K × V)) (k : K) : Option V :=
  (d.find? (fun p => decide (p.1 = k))).map Prod.snd

/-- `d[k] = v` in Python: update in place when the key exists, append otherwise. -/
def dictSet {K V : Type} [DecidableEq K] (d : List (K × V)) (k : K) (v : V) :
    List (K × V) :=
  if dictHas d k then d.map (fun p => if p.1 = k then (k, v) else p)
  else d ++ [(k, v)]

/-- `del d[k]` in Python. -/
def dictDel {K V : Type} [DecidableEq K] (d : List (K × V)) (k : K) : List (K × V) :=
  d.filter (fun p => decide (p.1 ≠ k))

/-! ### `axpy/helper.py`: voltage formatting

Python renders `"{:.2f}".format(x)` for a non-negative value: round to the
nearest hundredth, ties to even, then print with exactly two decimals. -/

/-- Round `100 * q` (with `q ≥ 0`) to the nearest integer, ties to even. -/
def hundredths (q : ℚ) : ℕ :=
  let a := (100 * q).num.toNat
  let d := (100 * q).den
  let k := a / d
  let r := a % d
  if 2 * r < d then k
  else if d < 2 * r then k + 1
  else if k % 2 = 0 then k else k + 1

def twoDigits (m : ℕ) : String :=
  (if m < 10 then "0" else "") ++ toString m

/-- `"{:.2f}".format(q)` for a non-negative rational. -/
def formatFixed2 (q : ℚ) : String :=
  toString (hundredths q / 100) ++ "." ++ twoDigits (hundredths q % 100)

/-- `voltage_to_string` from `axpy/helper.py`. -/
def voltage_to_string (v : ℚ) : String :=
  if v < 0 then "m" ++ formatFixed2 (-v) else formatFixed2 v

/-! ### `axpy/scenario.py` -/

structure AxScenario where
  accuracy : ℤ
  vdd : ℚ
  clock_multiplier : Option ℚ
  mode_signals : Option (List (String × ℤ))
deriving DecidableEq

/-- The derived `name` property of `AxScenario`. -/
def AxScenario.name (s : AxScenario) : String :=
  "acc_" ++ toString s.accuracy ++ "bit_vdd_" ++ voltage_to_string s.vdd ++ "V"

/-! ### `axpy/circuit.py` -/

inductive PortDirection where
  | INPUT
  | OUTPUT
deriving DecidableEq

inductive CircErr where
  | duplicatePort
  | unknownPort
deriving DecidableEq

structure AxCircuit where
  input_ports : List (String × ℤ)
  output_ports : List (String × ℤ)
  port_multipliers : List (String × ℤ)
deriving DecidableEq

def add_port (c : AxCircuit) (name : String) (width : ℤ)
    (direction : PortDirection) (_multiplier : ℤ := 1) : Except CircErr AxCircuit :=
  match direction with
  | PortDirection.INPUT =>
      if dictHas c.input_ports name then Except.error CircErr.duplicatePort
      else Except.ok { c with input_ports := dictSet c.input_ports name width }
  | PortDirection.OUTPUT =>
      if dictHas c.output_ports name then Except.error CircErr.duplicatePort
      else Except.ok { c with output_ports := dictSet c.output_ports name width }

def change_port_width (c : AxCircuit) (name : String) (width : ℤ) :
    Except CircErr AxCircuit :=
  if ¬ dictHas c.input_ports name ∧ ¬ dictHas c.output_ports name then
    Except.error CircErr.unknownPort
  else if dictHas c.input_ports name then
    Except.ok { c with input_ports := dictSet c.input_ports name width }
  else if dictHas c.output_ports name then
    Except.ok { c with output_ports := dictSet c.output_ports name width }
  else Except.ok c

def change_port_multiplier (c : AxCircuit) (name : String) (multiplier : ℤ) :
    Except CircErr AxCircuit :=
  if ¬ dictHas c.input_ports name ∧ ¬ dictHas c.output_ports name then
    Except.error CircErr.unknownPort
  else
    Except.ok { c with port_multipliers := dictSet c.port_multipliers name multiplier }

def remove_port (c : AxCircuit) (name : String) : Except CircErr AxCircuit :=
  if ¬ dictHas c.input_ports name ∧ ¬ dictHas c.output_ports name then
    Except.error CircErr.unknownPort
  else
    let c1 :=
      if dictHas c.input_ports name then
        { c with input_ports := dictDel c.input_ports name }
      else if dictHas c.output_ports name then
        { c with output_ports := dictDel c.output_ports name }
      else c
    if dictHas c1.port_multipliers name then
      Except.ok { c1 with port_multipliers := dictDel c1.port_multipliers name }
    else Except.ok c1

def duplicate (c : AxCircuit) : AxCircuit :=
  ⟨c.input_ports, c.output_ports, c.port_multipliers⟩

/-- `m = 1 if n not in self.port_multipliers else self.port_multipliers[n]`. -/
def multOf (c : AxCircuit) (n : String) : ℤ :=
  if dictHas c.port_multipliers n then (dictGet c.port_multipliers n).getD 1 else 1

def portEntry (c : AxCircuit) (n : String) (w : ℤ) : String :=
  "\x7b\"" ++ n ++ "\" " ++ toString w ++ " " ++ toString (multOf c n) ++ "\x7d "

/-- The `tcl_description` property of `AxCircuit`. -/
def tcl_description (c : AxCircuit) : String :=
  "set IN_PORTS \x7b " ++
    String.join (c.input_ports.map (fun p => portEntry c p.1 p.2)) ++ "\x7d;" ++
  "set OUT_PORTS \x7b " ++
    String.join (c.output_ports.map (fun p => portEntry c p.1 p.2)) ++ "\x7d;"

/-- First half of the documented data-model invariant: every multiplier key
names an existing port. -/
def multKeysOk (c : AxCircuit) : Prop :=
  ∀ p ∈ c.port_multipliers,
    dictHas c.input_ports p.1 = true ∨ dictHas c.output_ports p.1 = true

/-- Second half of the invariant: the two directions never collide on a name. -/
def directionsDisjoint (c : AxCircuit) : Prop :=
  ∀ p ∈ c.input_ports, dictHas c.output_ports p.1 = false

/-- The documented data-model invariant of `CircuitDescriptor`. -/
def validCircuit (c : AxCircuit) : Prop :=
  multKeysOk c ∧ directionsDisjoint c

instance (c : AxCircuit) : Decidable (multKeysOk c) := by
  unfold multKeysOk; infer_instance

instance (c : AxCircuit) : Decidable (directionsDisjoint c) := by
  unfold directionsDisjoint; infer_instance

instance (c : AxCircuit) : Decidable (validCircuit c) := by
  unfold validCircuit; infer_instance

/-! ### `axpy/reconf/reconf.py`: the scenario optimizer

`sorted(range(len(l)), key=lambda i: l[i], reverse=True)` and
`l.sort(reverse=True)` are stable descending sorts; both are modelled by
insertion sorts that place a new element after all elements with a
greater-or-equal key. -/

def insertIdxDesc (key : ℕ → ℤ) (i : ℕ) : List ℕ → List ℕ
  | [] => [i]
  | j :: rest => if key j < key i then i :: j :: rest else j :: insertIdxDesc key i rest

def sortIdxDesc (key : ℕ → ℤ) (l : List ℕ) : List ℕ :=
  l.foldl (fun acc i => insertIdxDesc key i acc) []

def insertDescQ (x : ℚ) : List ℚ → List ℚ
  | [] => [x]
  | y :: rest => if y < x then x :: y :: rest else y :: insertDescQ x rest

def sortDescQ (l : List ℚ) : List ℚ :=
  l.foldl (fun acc x => insertDescQ x acc) []

/-- The configuration state produced by `read_config`: `weights` defaults to
all ones when the `weights` key is absent. -/
structure ReconfConfig where
  acc_list : List ℤ
  vdd_list : List ℚ
  clock_multipliers : List (Option ℚ)
  mode_inputs : Option (List String)
  mode_values : Option (List (List ℤ))
  weights : List ℚ
deriving DecidableEq

/-- `_create_mode`. -/
def create_mode (mi : Option (List String)) (mv : Option (List (List ℤ)))
    (precision_index : ℕ) : Option (List (String × ℤ)) :=
  match mi with
  | none => none
  | some names =>
      some ((List.range names.length).map
        (fun j => (names.getD j "", ((mv.getD []).getD precision_index []).getD j 0)))

/-- `_weighted_total_power`: `weights = self._weights[:len(power)]` then
`sum(i * j for i, j in zip(power, weights))`. -/
def weighted_total_power (weights : List ℚ) (power : List ℚ) : ℚ :=
  ((power.zip (weights.take power.length)).map (fun ij => ij.1 * ij.2)).sum

inductive RunErr where
  | timingNominal
  | timingDescent
  | nameError
  | keyError
deriving DecidableEq

/-- Observable side effects of `run`: each backend invocation with its
cumulative scenario list, the report-table write, and the artifact copies. -/
inductive Effect where
  | dcCall (scens : List AxScenario)
  | writeTable (rows : List (ℤ × ℚ × ℚ))
  | copyNetlist
  | copySdc
  | copySpef
deriving DecidableEq

/-- The local variables of the per-precision descent loop. -/
structure DescentState where
  curr_power : List ℚ
  curr_tot_power : ℚ
  curr_scenario : AxScenario
  curr_vdd_id : ℕ
deriving DecidableEq

/-- The inner `for new_vdd_id in range(curr_vdd_id + 1, len(self._vdd_list))`
loop of `run`: probe one lower voltage at a time, accept it while the backend
is compliant and the weighted total power does not increase, `break` at the
first rejection. -/
def descend (dc : List AxScenario → List ℚ × Bool) (weights : List ℚ)
    (accepted : List AxScenario) (acc : ℤ) (cm : Option ℚ)
    (mode : Option (List (String × ℤ))) (vdd_list : List ℚ) :
    DescentState → List ℕ → DescentState × List Effect
  | st, [] => (st, [])
  | st, new_vdd_id :: rest =>
      let new_scenario : AxScenario := ⟨acc, vdd_list.getD new_vdd_id 0, cm, mode⟩
      let res := dc (accepted ++ [new_scenario])
      let new_tot_power := weighted_total_power weights res.1
      if res.2 = true ∧ new_tot_power ≤ st.curr_tot_power then
        let r := descend dc weights accepted acc cm mode vdd_list
          ⟨res.1, new_tot_power, new_scenario, new_vdd_id⟩ rest
        (r.1, Effect.dcCall (accepted ++ [new_scenario]) :: r.2)
      else (st, [Effect.dcCall (accepted ++ [new_scenario])])

/-- The outer `for curr_acc_id in range(1, len(self._acc_list))` loop of
`run`.  The scenario table is a Python dict from precision to an optional
scenario; `accepted` reproduces `_combined_scenario_desc`, which joins the
non-`None` values in insertion order. -/
def outerLoop (dc : List AxScenario → List ℚ × Bool) (acc_list : List ℤ)
    (vdd_list : List ℚ) (cms : List (Option ℚ)) (mi : Option (List String))
    (mv : Option (List (List ℤ))) (weights : List ℚ) :
    List ℕ → List (ℤ × Option AxScenario) → ℕ → Option (List ℚ) →
    List Effect × Except RunErr (List (ℤ × Option AxScenario) × ℕ × Option (List ℚ))
  | [], scen_table, curr_vdd_id, curr_power =>
      ([], Except.ok (scen_table, curr_vdd_id, curr_power))
  | curr_acc_id :: rest, scen_table, curr_vdd_id, _ =>
      let curr_mode := create_mode mi mv curr_acc_id
      let accepted := scen_table.filterMap Prod.snd
      let curr_scenario : AxScenario :=
        ⟨acc_list.getD curr_acc_id 0, vdd_list.getD curr_vdd_id 0,
         cms.getD curr_acc_id none, curr_mode⟩
      let res := dc (accepted ++ [curr_scenario])
      let e := Effect.dcCall (accepted ++ [curr_scenario])
      if res.2 = true then
        let curr_tot_power := weighted_total_power weights res.1
        let d := descend dc weights accepted (acc_list.getD curr_acc_id 0)
          (cms.getD curr_acc_id none) curr_mode vdd_list
          ⟨res.1, curr_tot_power, curr_scenario, curr_vdd_id⟩
          (List.range' (curr_vdd_id + 1) (vdd_list.length - (curr_vdd_id + 1)))
        let scen_table' :=
          dictSet scen_table (acc_list.getD curr_acc_id 0) (some d.1.curr_scenario)
        let r := outerLoop dc acc_list vdd_list cms mi mv weights rest scen_table'
          d.1.curr_vdd_id (some d.1.curr_power)
        (e :: d.2 ++ r.1, r.2)
      else ([e], Except.error RunErr.timingDescent)

/-- `self._acc_list` after the descending stable sort at the top of `run`. -/
def sortedPrecList (cfg : ReconfConfig) : List ℤ :=
  (sortIdxDesc (fun i => cfg.acc_list.getD i 0) (List.range cfg.acc_list.length)).map
    (fun i => cfg.acc_list.getD i 0)

/-- `self._mode_values` after the same permutation. -/
def sortedModeValues (cfg : ReconfConfig) : Option (List (List ℤ)) :=
  match cfg.mode_values with
  | none => none
  | some mv =>
      some ((sortIdxDesc (fun i => cfg.acc_list.getD i 0)
        (List.range cfg.acc_list.length)).map (fun i => mv.getD i []))

/-- `self._vdd_list` after `sort(reverse=True)`. -/
def sortedVddList (cfg : ReconfConfig) : List ℚ :=
  sortDescQ cfg.vdd_list

/-- The nominal scenario built by `run`: highest precision, highest voltage,
the (unpermuted) first clock multiplier, the mode row of the highest
precision. -/
def nomScenario (cfg : ReconfConfig) : AxScenario :=
  ⟨(sortedPrecList cfg).getD 0 0, (sortedVddList cfg).getD 0 0,
   cfg.clock_multipliers.getD 0 none,
   create_mode cfg.mode_inputs (sortedModeValues cfg) 0⟩

/-- The `[(a, self._power_table[a], self._scen_table[a]) for a in acc_list]`
reads at the end of `run`; `none` models the `KeyError` / `AttributeError`
raised when a lookup fails. -/
def entriesFold (acc_list : List ℤ) (power_table : List (ℤ × ℚ))
    (scen_table : List (ℤ × Option AxScenario)) :
    Option (List (ℤ × ℚ × AxScenario)) :=
  acc_list.foldr
    (fun a acc =>
      match acc, dictGet power_table a, dictGet scen_table a with
      | some rs, some p, some (some s) => some ((a, p, s) :: rs)
      | _, _, _ => none)
    (some [])

/-- `ReconfSynthesis.run`, with the backend modelled by the oracle `dc` and
`write_table` standing for `output_table is not None`.  Returns the effect
trace and either an error or the `[(power, scenario)]` result list. -/
def run (dc : List AxScenario → List ℚ × Bool) (cfg : ReconfConfig)
    (write_table : Bool) :
    List Effect × Except RunErr (List (ℚ × AxScenario)) :=
  let acc_list := sortedPrecList cfg
  let vdd_list := sortedVddList cfg
  let scen_table0 : List (ℤ × Option AxScenario) :=
    acc_list.foldl (fun d a => dictSet d a none) []
  let nom_scenario := nomScenario cfg
  let nomCall := scen_table0.filterMap Prod.snd ++ [nom_scenario]
  let nomRes := dc nomCall
  let e0 := Effect.dcCall nomCall
  if nomRes.2 = true then
    let scen_table1 := dictSet scen_table0 (acc_list.getD 0 0) (some nom_scenario)
    let r := outerLoop dc acc_list vdd_list cfg.clock_multipliers cfg.mode_inputs
      (sortedModeValues cfg) cfg.weights
      (List.range' 1 (acc_list.length - 1)) scen_table1 0 none
    match r.2 with
    | Except.error err => (e0 :: r.1, Except.error err)
    | Except.ok (scen_tableF, _, curr_powerF) =>
        match curr_powerF with
        | none => (e0 :: r.1, Except.error RunErr.nameError)
        | some cp =>
            let power_table : List (ℤ × ℚ) :=
              (acc_list.zip cp).foldl (fun d p => dictSet d p.1 p.2) []
            match entriesFold acc_list power_table scen_tableF with
            | none => (e0 :: r.1, Except.error RunErr.keyError)
            | some es =>
                let rows := es.map (fun t => (t.1, t.2.1, t.2.2.vdd))
                let tailEffs :=
                  (if write_table then [Effect.writeTable rows] else []) ++
                  [Effect.copyNetlist, Effect.copySdc, Effect.copySpef]
                (e0 :: r.1 ++ tailEffs, Except.ok (es.map (fun t => t.2)))
  else ([e0], Except.error RunErr.timingNominal)

/-- The scenario list of the chronologically last backend call in a trace. -/
def lastDcCall (effs : List Effect) : Option (List AxScenario) :=
  effs.foldl
    (fun acc e => match e with | Effect.dcCall s => some s | _ => acc)
    none

/-- Recognizes a backend call whose cumulative scenario list has exactly one
entry: only the nominal synthesis call has this shape. -/
def isNominalCall : Effect → Bool
  | Effect.dcCall s => s.length == 1
  | _ => false

/-- The cumulative scenario lists of the backend calls of a trace, in
chronological order. -/
def dcCallsOf (effs : List Effect) : List (List AxScenario) :=
  effs.filterMap (fun e => match e with | Effect.dcCall s => some s | _ => none)

/-- The backend-call payloads of consecutive per-precision blocks: the block
for the precision at sorted position `k0 + i` consists of one call per trial
scenario, each carrying the first `k0 + i` committed scenarios — all the
scenarios accepted before that call — plus that trial. -/
def cumulativeBlocks (committed : List AxScenario) (k0 : ℕ)
    (trials : List (List AxScenario)) : List (List AxScenario) :=
  ((List.range' k0 trials.length).zip trials).flatMap
    (fun p => p.2.map (fun sc => committed.take p.1 ++ [sc]))

/-- The scenario table as it stands after the first `committed.length`
precisions (in sorted order) have been decided: decided precisions map to
their committed scenarios, the remaining ones still map to `None`. -/
def scenTableOf (acc_list : List ℤ) (committed : List AxScenario) :
    List (ℤ × Option AxScenario) :=
  (acc_list.take committed.length).zip (committed.map some)
    ++ (acc_list.drop committed.length).map (fun a => (a, none))

/-- Modelled from the spec's words for C4: the weight configured for a given
precision is the weight list entry at that precision's position in the
configured (pre-sort) precision list. -/
def specWeightForPrecision (cfg : ReconfConfig) (p : ℤ) : ℚ :=
  cfg.weights.getD (cfg.acc_list.indexOf p) 1

/-- Modelled from the spec's words for C4: sum, over the decided precisions in
commit (descending) order, of each precision's power value times the weight
configured for that same precision. -/
def specWeightedTotalPower (cfg : ReconfConfig) (power : List ℚ) : ℚ :=
  ((power.zip ((sortedPrecList cfg).map (specWeightForPrecision cfg))).map
    (fun ij => ij.1 * ij.2)).sum

/-! ### Concrete fixtures used to exercise the optimizer -/

/-- Backend stub for the decrease-then-increase descent example: precision 4
draws total power 18 at voltage 10, 17 at voltage 9, 19 at voltage 8 and 12 at
voltage 7. -/
def dcC1 : List AxScenario → List ℚ × Bool
  | [_] => ([10], true)
  | [_, t] =>
      if t.vdd = 9 then ([10, 7], true)
      else if t.vdd = 8 then ([10, 9], true)
      else if t.vdd = 7 then ([10, 2], true)
      else ([10, 8], true)
  | _ => ([10], true)

def cfgC1 : ReconfConfig :=
  ⟨[8, 4], [10, 9, 8, 7], [none, none], none, none, [1, 1]⟩

/-- Backend stub whose last call of the run is a rejected probe: the probe of
precision 4 at the lower voltage fails timing and returns a different power
vector. -/
def dcC3 : List AxScenario → List ℚ × Bool
  | [_] => ([5], true)
  | [_, t] => if t.vdd = 2 then ([5, 3], true) else ([5, 4], false)
  | _ => ([5], true)

def cfgC3 : ReconfConfig :=
  ⟨[8, 4], [2, 1], [none, none], none, none, [1, 1]⟩

/-- A configuration whose precision list is not already sorted descending:
precision 2 carries weight 10 and precision 8 carries weight 1. -/
def cfgC4 : ReconfConfig :=
  ⟨[2, 8], [1], [none, none], none, none, [10, 1]⟩

/-! ### Lemmas about the dictionary model -/

section DictLemmas

variable {K V : Type} [DecidableEq K]

theorem dictHas_iff (d : List (K × V)) (k : K) :
    dictHas d k = true ↔ k ∈ d.map Prod.fst := by
  simp [dictHas, List.any_eq_true, List.mem_map]

theorem dictHas_false_iff (d : List (K × V)) (k : K) :
    dictHas d k = false ↔ ∀ p ∈ d, p.1 ≠ k := by
  rw [← Bool.not_eq_true, not_iff_comm, dictHas_iff]
  simp [List.mem_map]

theorem dictHas_append (d e : List (K × V)) (k : K) :
    dictHas (d ++ e) k = (dictHas d k || dictHas e k) :=
  List.any_append

theorem dictHas_single (k k' : K) (v : V) :
    dictHas [(k, v)] k' = decide (k = k') := by
  simp [dictHas]

theorem dictSet_fresh {d : List (K × V)} {k : K} (v : V)
    (h : dictHas d k = false) : dictSet d k v = d ++ [(k, v)] := by
  simp [dictSet, h]

theorem dictDel_fresh {d : List (K × V)} {k : K}
    (h : dictHas d k = false) : dictDel d k = d := by
  rw [dictHas_false_iff] at h
  exact List.filter_eq_self.mpr (fun p hp => by simpa using h p hp)

theorem dictDel_append_self {d : List (K × V)} {k : K} (v : V)
    (h : dictHas d k = false) : dictDel (d ++ [(k, v)]) k = d := by
  rw [dictHas_false_iff] at h
  have h1 : List.filter (fun p => decide (p.1 ≠ k)) d = d :=
    List.filter_eq_self.mpr (fun p hp => by simpa using h p hp)
  rw [dictDel, List.filter_append, h1]
  simp

theorem keys_dictSet_of_mem {d : List (K × V)} {k : K} (v : V)
    (h : dictHas d k = true) :
    (dictSet d k v).map Prod.fst = d.map Prod.fst := by
  rw [dictSet, if_pos h, List.map_map]
  refine List.map_congr_left (fun p _ => ?_)
  by_cases hp : p.1 = k <;> simp [hp]

theorem dictHas_dictSet (d : List (K × V)) (k k' : K) (v : V) :
    dictHas (dictSet d k v) k' = (dictHas d k' || decide (k' = k)) := by
  by_cases h : dictHas d k = true
  · rw [Bool.eq_iff_iff]
    rw [Bool.or_eq_true, dictHas_iff, keys_dictSet_of_mem v h, ← dictHas_iff]
    constructor
    · exact Or.inl
    · rintro (h' | h')
      · exact h'
      · simp only [decide_eq_true_eq] at h'
        subst h'; exact h
  · rw [Bool.not_eq_true] at h
    rw [dictSet_fresh v h, dictHas_append, dictHas_single]
    have he : decide (k = k') = decide (k' = k) := by
      rw [decide_eq_decide]; exact eq_comm
    rw [he]

theorem mem_dictSet {d : List (K × V)} {k : K} {v : V} {p : K × V}
    (h : p ∈ dictSet d k v) : (p ∈ d ∧ p.1 ≠ k) ∨ p = (k, v) := by
  by_cases hk : dictHas d k = true
  · rw [dictSet, if_pos hk] at h
    obtain ⟨q, hq, hfq⟩ := List.mem_map.mp h
    by_cases hq1 : q.1 = k
    · right; rw [if_pos hq1] at hfq; exact hfq.symm
    · left; rw [if_neg hq1] at hfq; subst hfq; exact ⟨hq, hq1⟩
  · rw [Bool.not_eq_true] at hk
    rw [dictSet_fresh v hk, List.mem_append] at h
    rcases h with h | h
    · left
      rw [dictHas_false_iff] at hk
      exact ⟨h, hk p h⟩
    · right; simpa using h

theorem mem_dictDel {d : List (K × V)} {k : K} {p : K × V} :
    p ∈ dictDel d k ↔ p ∈ d ∧ p.1 ≠ k := by
  simp [dictDel, List.mem_filter]

theorem dictHas_dictDel_ne {d : List (K × V)} {k k' : K} (h : k' ≠ k) :
    dictHas (dictDel d k) k' = dictHas d k' := by
  rw [Bool.eq_iff_iff, dictHas_iff, dictHas_iff]
  simp only [List.mem_map]
  constructor
  · rintro ⟨p, hp, hk⟩; exact ⟨p, (mem_dictDel.mp hp).1, hk⟩
  · rintro ⟨p, hp, hk⟩
    exact ⟨p, mem_dictDel.mpr ⟨hp, hk ▸ h⟩, hk⟩

theorem dictHas_dictDel_self (d : List (K × V)) (k : K) :
    dictHas (dictDel d k) k = false := by
  rw [dictHas_false_iff]
  intro p hp
  exact (mem_dictDel.mp hp).2

theorem dictGet_cons_eq (d : List (K × V)) (k : K) (v : V) :
    dictGet ((k, v) :: d) k = some v := by
  simp [dictGet, List.find?]

theorem dictGet_cons_ne (d : List (K × V)) {k k' : K} (v : V) (h : k' ≠ k) :
    dictGet ((k, v) :: d) k' = dictGet d k' := by
  simp only [dictGet, List.find?]
  rw [decide_eq_false (by simpa using fun he => h he.symm)]

end DictLemmas

/-! ### Claims about the circuit and scenario data model -/

theorem twoDigits_length : ∀ m : ℕ, m < 100 → (twoDigits m).length = 2 := by decide

/-- C9: a Scenario's derived name is a pure function of (precision, voltage)
only; the voltage is rendered as its absolute value with exactly two decimal
digits, with the letter `m` replacing the minus sign for negative voltages, so
voltage -0.9 yields the fragment `m0.90` and the names for voltages -0.9 and
+0.9 differ only by that prefix letter. -/
theorem scenario_name_pure_and_sign_letter :
    (∀ (a : ℤ) (v : ℚ) (cm₁ cm₂ : Option ℚ) (ms₁ ms₂ : Option (List (String × ℤ))),
        (AxScenario.mk a v cm₁ ms₁).name = (AxScenario.mk a v cm₂ ms₂).name)
    ∧ (∀ v : ℚ, v < 0 → voltage_to_string v = "m" ++ formatFixed2 |v|)
    ∧ (∀ v : ℚ, 0 ≤ v → voltage_to_string v = formatFixed2 |v|)
    ∧ (∀ q : ℚ, formatFixed2 q
        = toString (hundredths q / 100) ++ "." ++ twoDigits (hundredths q % 100)
        ∧ (twoDigits (hundredths q % 100)).length = 2)
    ∧ voltage_to_string (-(9/10) : ℚ) = "m0.90"
    ∧ (∀ (a : ℤ) (v : ℚ) (cm cm' : Option ℚ) (ms ms' : Option (List (String × ℤ))),
        0 < v →
        (AxScenario.mk a (-v) cm ms).name
          = "acc_" ++ toString a ++ "bit_vdd_" ++ ("m" ++ formatFixed2 v) ++ "V"
        ∧ (AxScenario.mk a v cm' ms').name
          = "acc_" ++ toString a ++ "bit_vdd_" ++ formatFixed2 v ++ "V") := by
  refine ⟨fun a v _ _ _ _ => rfl, ?_, ?_, ?_,
    by norm_num [voltage_to_string, formatFixed2, hundredths, twoDigits]; decide, ?_⟩
  · intro v hv
    rw [voltage_to_string, if_pos hv, abs_of_neg hv]
  · intro v hv
    rw [voltage_to_string, if_neg (not_lt.mpr hv), abs_of_nonneg hv]
  · intro q
    exact ⟨rfl, twoDigits_length _ (Nat.mod_lt _ (by norm_num))⟩
  · intro a v cm cm' ms ms' hv
    constructor
    · show "acc_" ++ toString a ++ "bit_vdd_" ++ voltage_to_string (-v) ++ "V" = _
      rw [voltage_to_string, if_pos (neg_neg_of_pos hv), neg_neg]
    · show "acc_" ++ toString a ++ "bit_vdd_" ++ voltage_to_string v ++ "V" = _
      rw [voltage_to_string, if_neg (not_lt.mpr hv.le)]

theorem scenario_name_pure_and_sign_letter_witness :
    ((0 : ℚ) < 9/10) ∧
    (AxScenario.mk 8 (-(9/10)) none none).name
      = "acc_" ++ toString (8 : ℤ) ++ "bit_vdd_" ++ ("m" ++ formatFixed2 (9/10)) ++ "V" :=
  ⟨by norm_num,
   (scenario_name_pure_and_sign_letter.2.2.2.2.2
      8 (9/10) none none none none (by norm_num)).1⟩

/-- C10: `add_port` never modifies the multiplier table (the multiplier
argument is silently discarded); hence a freshly added port is serialized in
the backend port-table description with the default multiplier 1, whatever
multiplier was requested. -/
theorem add_port_multiplier_frame :
    ∀ (c : AxCircuit) (name : String) (w m : ℤ) (dir : PortDirection)
      (c' : AxCircuit),
      add_port c name w dir m = Except.ok c' →
      c'.port_multipliers = c.port_multipliers ∧
      (dictHas c.port_multipliers name = false →
        multOf c' name = 1 ∧
        portEntry c' name w
          = "\x7b\"" ++ name ++ "\" " ++ toString w ++ " "
              ++ toString (1 : ℤ) ++ "\x7d ") := by
  intro c name w m dir c' hok
  have hpm : c'.port_multipliers = c.port_multipliers := by
    cases dir <;> simp only [add_port] at hok <;> split at hok <;>
      first
        | exact Except.noConfusion hok
        | (injection hok with h; subst h; rfl)
  refine ⟨hpm, fun hfresh => ?_⟩
  have hmul : multOf c' name = 1 := by
    rw [multOf, hpm, hfresh]
    simp
  exact ⟨hmul, by rw [portEntry, hmul]⟩

theorem add_port_multiplier_frame_witness :
    add_port (AxCircuit.mk [] [] []) "a" 4 PortDirection.INPUT 5
      = Except.ok (AxCircuit.mk [("a", 4)] [] []) ∧
    (AxCircuit.mk [("a", 4)] [] []).port_multipliers
      = (AxCircuit.mk [] [] []).port_multipliers ∧
    multOf (AxCircuit.mk [("a", 4)] [] []) "a" = 1 := by
  have h : add_port (AxCircuit.mk [] [] []) "a" 4 PortDirection.INPUT 5
      = Except.ok (AxCircuit.mk [("a", 4)] [] []) := rfl
  have h2 := add_port_multiplier_frame (AxCircuit.mk [] [] []) "a" 4 5
    PortDirection.INPUT (AxCircuit.mk [("a", 4)] [] []) h
  exact ⟨h, h2.1, (h2.2 (by decide)).1⟩

/-- C7 fails as stated: on a valid circuit owning an output port `x` with a
multiplier, adding an input port also named `x` succeeds, and the subsequent
`remove_port "x"` erases the multiplier entry of the pre-existing output
port, so the original state is not restored. -/
theorem add_remove_roundtrip_counterexample :
    validCircuit (AxCircuit.mk [] [("x", 4)] [("x", 2)]) ∧
    add_port (AxCircuit.mk [] [("x", 4)] [("x", 2)]) "x" 8 PortDirection.INPUT 1
      = Except.ok (AxCircuit.mk [("x", 8)] [("x", 4)] [("x", 2)]) ∧
    remove_port (AxCircuit.mk [("x", 8)] [("x", 4)] [("x", 2)]) "x"
      = Except.ok (AxCircuit.mk [] [("x", 4)] []) ∧
    AxCircuit.mk [] [("x", 4)] [] ≠ AxCircuit.mk [] [("x", 4)] [("x", 2)] :=
  ⟨by decide, rfl, rfl, by decide⟩

/-- C7 (amended): for every valid circuit and every name that is not already a
port in either direction, `add_port` followed by `remove_port` of that name
restores the original circuit exactly. -/
theorem add_remove_roundtrip_fresh :
    ∀ (c : AxCircuit) (name : String) (w m : ℤ) (dir : PortDirection),
      validCircuit c →
      dictHas c.input_ports name = false →
      dictHas c.output_ports name = false →
      ∃ c', add_port c name w dir m = Except.ok c' ∧
            remove_port c' name = Except.ok c := by
  intro c name w m dir hval hin hout
  have hmul : dictHas c.port_multipliers name = false := by
    rw [dictHas_false_iff]
    intro p hp he
    rcases hval.1 p hp with h | h <;> rw [he] at h
    · rw [hin] at h; exact Bool.false_ne_true h
    · rw [hout] at h; exact Bool.false_ne_true h
  obtain ⟨ip, op, pm⟩ := c
  dsimp only at hin hout hmul
  cases dir
  case INPUT =>
    refine ⟨⟨dictSet ip name w, op, pm⟩, ?_, ?_⟩
    · simp [add_port, hin]
    · have hset := dictSet_fresh (d := ip) (k := name) w hin
      have h1 : dictHas (dictSet ip name w) name = true := by
        rw [hset, dictHas_append, hin, dictHas_single]
        simp
      have h1' : dictHas (ip ++ [(name, w)]) name = true := hset ▸ h1
      simp [remove_port, h1, h1', hmul, hout, hset, dictDel_append_self w hin]
  case OUTPUT =>
    refine ⟨⟨ip, dictSet op name w, pm⟩, ?_, ?_⟩
    · simp [add_port, hout]
    · have hset := dictSet_fresh (d := op) (k := name) w hout
      have h1 : dictHas (dictSet op name w) name = true := by
        rw [hset, dictHas_append, hout, dictHas_single]
        simp
      have h1' : dictHas (op ++ [(name, w)]) name = true := hset ▸ h1
      simp [remove_port, h1, h1', hmul, hin, hset, dictDel_append_self w hout]

theorem dictHas_dictSet_of_true {K V : Type} [DecidableEq K]
    {d : List (K × V)} {k k' : K} (v : V) (h : dictHas d k' = true) :
    dictHas (dictSet d k v) k' = true := by
  rw [dictHas_dictSet, h, Bool.true_or]

theorem dictHas_congr_keys {K V W : Type} [DecidableEq K]
    {d : List (K × V)} {e : List (K × W)}
    (h : d.map Prod.fst = e.map Prod.fst) (k : K) :
    dictHas d k = dictHas e k := by
  rw [Bool.eq_iff_iff, dictHas_iff, dictHas_iff, h]

theorem dictHas_of_mem {K V : Type} [DecidableEq K]
    {d : List (K × V)} {p : K × V} (h : p ∈ d) : dictHas d p.1 = true :=
  (dictHas_iff d p.1).mpr (List.mem_map.mpr ⟨p, h, rfl⟩)

theorem disjoint_out_of_in {c : AxCircuit} (hd : directionsDisjoint c)
    {n : String} (h : dictHas c.input_ports n = true) :
    dictHas c.output_ports n = false := by
  rw [dictHas_iff, List.mem_map] at h
  obtain ⟨p, hp, he⟩ := h
  exact he ▸ hd p hp

theorem add_port_ok_input {c : AxCircuit} {n : String} {w m : ℤ} {c' : AxCircuit}
    (hok : add_port c n w PortDirection.INPUT m = Except.ok c') :
    dictHas c.input_ports n = false ∧
    c' = { c with input_ports := dictSet c.input_ports n w } := by
  by_cases hc : dictHas c.input_ports n = true
  · simp [add_port, hc] at hok
  · simp only [add_port, hc, if_false, if_neg hc] at hok
    injection hok with h
    exact ⟨Bool.not_eq_true _ ▸ hc, h.symm⟩

theorem add_port_ok_output {c : AxCircuit} {n : String} {w m : ℤ} {c' : AxCircuit}
    (hok : add_port c n w PortDirection.OUTPUT m = Except.ok c') :
    dictHas c.output_ports n = false ∧
    c' = { c with output_ports := dictSet c.output_ports n w } := by
  by_cases hc : dictHas c.output_ports n = true
  · simp [add_port, hc] at hok
  · simp only [add_port, hc, if_false, if_neg hc] at hok
    injection hok with h
    exact ⟨Bool.not_eq_true _ ▸ hc, h.symm⟩

theorem add_port_preserves_multKeysOk (c : AxCircuit) (n : String) (w m : ℤ)
    (dir : PortDirection) (c' : AxCircuit) (hmk : multKeysOk c)
    (hok : add_port c n w dir m = Except.ok c') : multKeysOk c' := by
  cases dir
  case INPUT =>
    obtain ⟨-, rfl⟩ := add_port_ok_input hok
    intro p hp
    rcases hmk p hp with h | h
    · exact Or.inl (dictHas_dictSet_of_true w h)
    · exact Or.inr h
  case OUTPUT =>
    obtain ⟨-, rfl⟩ := add_port_ok_output hok
    intro p hp
    rcases hmk p hp with h | h
    · exact Or.inl h
    · exact Or.inr (dictHas_dictSet_of_true w h)

theorem add_port_fresh_preserves_valid (c : AxCircuit) (n : String) (w m : ℤ)
    (dir : PortDirection) (c' : AxCircuit) (hval : validCircuit c)
    (hin : dictHas c.input_ports n = false)
    (hout : dictHas c.output_ports n = false)
    (hok : add_port c n w dir m = Except.ok c') : validCircuit c' := by
  refine ⟨add_port_preserves_multKeysOk c n w m dir c' hval.1 hok, ?_⟩
  cases dir
  case INPUT =>
    obtain ⟨-, rfl⟩ := add_port_ok_input hok
    intro p hp
    rcases mem_dictSet hp with ⟨hp', -⟩ | rfl
    · exact hval.2 p hp'
    · exact hout
  case OUTPUT =>
    obtain ⟨-, rfl⟩ := add_port_ok_output hok
    intro p hp
    have hne : p.1 ≠ n := by
      intro he
      have := dictHas_of_mem hp
      rw [he, hin] at this
      exact Bool.false_ne_true this
    show dictHas (dictSet c.output_ports n w) p.1 = false
    rw [dictHas_dictSet, hval.2 p hp, Bool.false_or, decide_eq_false hne]

theorem change_port_width_preserves_valid (c : AxCircuit) (n : String) (w : ℤ)
    (c' : AxCircuit) (hval : validCircuit c)
    (hok : change_port_width c n w = Except.ok c') : validCircuit c' := by
  by_cases h1 : dictHas c.input_ports n = true
  · rw [change_port_width, if_neg (by simp [h1]), if_pos h1] at hok
    injection hok with h
    subst h
    have hkeys := keys_dictSet_of_mem (d := c.input_ports) (k := n) w h1
    constructor
    · intro p hp
      rcases hval.1 p hp with h | h
      · exact Or.inl (by rw [dictHas_congr_keys hkeys, h])
      · exact Or.inr h
    · intro p hp
      rcases mem_dictSet hp with ⟨hp', -⟩ | rfl
      · exact hval.2 p hp'
      · exact disjoint_out_of_in hval.2 h1
  · by_cases h2 : dictHas c.output_ports n = true
    · rw [change_port_width, if_neg (by simp [h2]), if_neg h1, if_pos h2] at hok
      injection hok with h
      subst h
      have hkeys := keys_dictSet_of_mem (d := c.output_ports) (k := n) w h2
      constructor
      · intro p hp
        rcases hval.1 p hp with h | h
        · exact Or.inl h
        · exact Or.inr (by rw [dictHas_congr_keys hkeys, h])
      · intro p hp
        rw [dictHas_congr_keys hkeys]
        exact hval.2 p hp
    · rw [change_port_width,
        if_pos ⟨by simpa using h1, by simpa using h2⟩] at hok
      exact Except.noConfusion hok

theorem change_port_multiplier_preserves_valid (c : AxCircuit) (n : String)
    (m : ℤ) (c' : AxCircuit) (hval : validCircuit c)
    (hok : change_port_multiplier c n m = Except.ok c') : validCircuit c' := by
  rw [change_port_multiplier] at hok
  split at hok
  · exact Except.noConfusion hok
  · rename_i hguard
    rw [not_and_or, not_not, not_not] at hguard
    injection hok with h
    subst h
    constructor
    · intro p hp
      rcases mem_dictSet hp with ⟨hp', -⟩ | rfl
      · exact hval.1 p hp'
      · exact hguard
    · exact hval.2

theorem remove_port_ok_char (c : AxCircuit) (n : String) (c' : AxCircuit)
    (hok : remove_port c n = Except.ok c') :
    (dictHas c.input_ports n = true ∧
      c' = { c with input_ports := dictDel c.input_ports n,
                    port_multipliers := dictDel c.port_multipliers n }) ∨
    (dictHas c.input_ports n = false ∧ dictHas c.output_ports n = true ∧
      c' = { c with output_ports := dictDel c.output_ports n,
                    port_multipliers := dictDel c.port_multipliers n }) := by
  by_cases h1 : dictHas c.input_ports n = true
  · left
    refine ⟨h1, ?_⟩
    by_cases h3 : dictHas c.port_multipliers n = true
    · simp [remove_port, h1, h3] at hok
      exact hok.symm
    · have h3' : dictHas c.port_multipliers n = false := by simpa using h3
      simp [remove_port, h1, h3] at hok
      rw [← hok, dictDel_fresh h3']
  · by_cases h2 : dictHas c.output_ports n = true
    · right
      refine ⟨by simpa using h1, h2, ?_⟩
      by_cases h3 : dictHas c.port_multipliers n = true
      · simp [remove_port, h1, h2, h3] at hok
        exact hok.symm
      · have h3' : dictHas c.port_multipliers n = false := by simpa using h3
        simp [remove_port, h1, h2, h3] at hok
        rw [← hok, dictDel_fresh h3']
    · rw [remove_port, if_pos ⟨h1, h2⟩] at hok
      exact Except.noConfusion hok

theorem remove_port_preserves_valid (c : AxCircuit) (n : String)
    (c' : AxCircuit) (hval : validCircuit c)
    (hok : remove_port c n = Except.ok c') : validCircuit c' := by
  rcases remove_port_ok_char c n c' hok with ⟨h1, rfl⟩ | ⟨h1, h2, rfl⟩
  · constructor
    · intro p hp
      obtain ⟨hp', hne⟩ := mem_dictDel.mp hp
      rcases hval.1 p hp' with h | h
      · exact Or.inl (by rw [dictHas_dictDel_ne hne, h])
      · exact Or.inr h
    · intro p hp
      exact hval.2 p (mem_dictDel.mp hp).1
  · constructor
    · intro p hp
      obtain ⟨hp', hne⟩ := mem_dictDel.mp hp
      rcases hval.1 p hp' with h | h
      · exact Or.inl h
      · exact Or.inr (by rw [dictHas_dictDel_ne hne, h])
    · intro p hp
      by_cases hpn : p.1 = n
      · rw [hpn]
        exact dictHas_dictDel_self _ _
      · rw [dictHas_dictDel_ne hpn]
        exact hval.2 p hp

/-- C8 fails as stated: `add_port` only rejects a duplicate within the same
direction, so adding input `x` to a valid circuit that already has output `x`
succeeds and produces a circuit violating direction-disjointness. -/
theorem add_port_cross_direction_counterexample :
    validCircuit (AxCircuit.mk [] [("x", 4)] []) ∧
    add_port (AxCircuit.mk [] [("x", 4)] []) "x" 8 PortDirection.INPUT 1
      = Except.ok (AxCircuit.mk [("x", 8)] [("x", 4)] []) ∧
    ¬ validCircuit (AxCircuit.mk [("x", 8)] [("x", 4)] []) ∧
    add_port (AxCircuit.mk [] [("x", 4)] []) "x" 8 PortDirection.INPUT 1
      ≠ Except.error CircErr.duplicatePort := by
  have hok : add_port (AxCircuit.mk [] [("x", 4)] []) "x" 8 PortDirection.INPUT 1
      = Except.ok (AxCircuit.mk [("x", 8)] [("x", 4)] []) := rfl
  exact ⟨by decide, hok, by decide,
    fun h => Except.noConfusion (hok.symm.trans h)⟩

/-- C8 (amended): every operation preserves the multiplier-key half of the
invariant; `add_port` raises `DuplicatePort` exactly when the name already
exists in the requested direction, so a name that exists only in the opposite
direction is accepted; direction-disjointness is therefore preserved by all
operations except such a cross-direction `add_port`, and is preserved by
`add_port` whenever the name is fresh in both directions. -/
theorem circuit_ops_preserve_invariants :
    (∀ (c : AxCircuit) (n : String) (w m : ℤ) (dir : PortDirection)
      (c' : AxCircuit), multKeysOk c → add_port c n w dir m = Except.ok c' →
      multKeysOk c')
    ∧ (∀ (c : AxCircuit) (n : String) (w m : ℤ) (dir : PortDirection)
      (c' : AxCircuit), validCircuit c →
      dictHas c.input_ports n = false → dictHas c.output_ports n = false →
      add_port c n w dir m = Except.ok c' → validCircuit c')
    ∧ (∀ (c : AxCircuit) (n : String) (w : ℤ) (c' : AxCircuit), validCircuit c →
      change_port_width c n w = Except.ok c' → validCircuit c')
    ∧ (∀ (c : AxCircuit) (n : String) (m : ℤ) (c' : AxCircuit), validCircuit c →
      change_port_multiplier c n m = Except.ok c' → validCircuit c')
    ∧ (∀ (c : AxCircuit) (n : String) (c' : AxCircuit), validCircuit c →
      remove_port c n = Except.ok c' → validCircuit c')
    ∧ (∀ c : AxCircuit, duplicate c = c)
    ∧ (∀ (c : AxCircuit) (n : String) (w m : ℤ) (dir : PortDirection),
      add_port c n w dir m = Except.error CircErr.duplicatePort ↔
      ((dir = PortDirection.INPUT ∧ dictHas c.input_ports n = true) ∨
       (dir = PortDirection.OUTPUT ∧ dictHas c.output_ports n = true))) := by
  refine ⟨add_port_preserves_multKeysOk, add_port_fresh_preserves_valid,
    change_port_width_preserves_valid, change_port_multiplier_preserves_valid,
    remove_port_preserves_valid, fun c => by cases c; rfl, ?_⟩
  intro c n w m dir
  cases dir <;> simp only [add_port] <;> split <;> rename_i hc <;> simp [hc]

theorem circuit_ops_preserve_invariants_witness :
    validCircuit (AxCircuit.mk [("a", 4)] [("z", 8)] [("a", 2)]) ∧
    remove_port (AxCircuit.mk [("a", 4)] [("z", 8)] [("a", 2)]) "a"
      = Except.ok (AxCircuit.mk [] [("z", 8)] []) ∧
    validCircuit (AxCircuit.mk [] [("z", 8)] []) ∧
    (add_port (AxCircuit.mk [("a", 4)] [("z", 8)] [("a", 2)]) "a" 9
        PortDirection.INPUT 1 = Except.error CircErr.duplicatePort ↔
      dictHas [("a", (4 : ℤ))] "a" = true) := by
  have hrem : remove_port (AxCircuit.mk [("a", 4)] [("z", 8)] [("a", 2)]) "a"
      = Except.ok (AxCircuit.mk [] [("z", 8)] []) := rfl
  refine ⟨by decide, hrem,
    circuit_ops_preserve_invariants.2.2.2.2.1
      (AxCircuit.mk [("a", 4)] [("z", 8)] [("a", 2)]) "a"
      (AxCircuit.mk [] [("z", 8)] []) (by decide) hrem, ?_⟩
  rw [circuit_ops_preserve_invariants.2.2.2.2.2.2
    (AxCircuit.mk [("a", 4)] [("z", 8)] [("a", 2)]) "a" 9 1 PortDirection.INPUT]
  simp

theorem add_remove_roundtrip_fresh_witness :
    validCircuit (AxCircuit.mk [("a", 4)] [] [("a", 3)]) ∧
    ∃ c', add_port (AxCircuit.mk [("a", 4)] [] [("a", 3)]) "b" 8
            PortDirection.OUTPUT 1 = Except.ok c' ∧
          remove_port c' "b" = Except.ok (AxCircuit.mk [("a", 4)] [] [("a", 3)]) :=
  ⟨by decide,
   add_remove_roundtrip_fresh (AxCircuit.mk [("a", 4)] [] [("a", 3)]) "b" 8 1
     PortDirection.OUTPUT (by decide) (by decide) (by decide)⟩

/-! ### Sorting lemmas -/

theorem foldl_insert_perm {α : Type} (ins : α → List α → List α)
    (hins : ∀ x l, List.Perm (ins x l) (x :: l)) :
    ∀ (l acc : List α), List.Perm (l.foldl (fun a x => ins x a) acc) (acc ++ l) := by
  intro l
  induction l with
  | nil => intro acc; simp
  | cons x l' ih =>
      intro acc
      rw [List.foldl_cons]
      refine ((ih (ins x acc)).trans ?_)
      refine (((hins x acc).append_right l').trans ?_)
      rw [List.cons_append]
      exact (List.perm_middle).symm

theorem insertIdxDesc_perm (key : ℕ → ℤ) (i : ℕ) :
    ∀ l : List ℕ, List.Perm (insertIdxDesc key i l) (i :: l)
  | [] => List.Perm.refl _
  | j :: rest => by
      rw [insertIdxDesc]
      split
      · exact List.Perm.refl _
      · exact ((insertIdxDesc_perm key i rest).cons j).trans (List.Perm.swap i j rest)

theorem sortIdxDesc_perm (key : ℕ → ℤ) (l : List ℕ) : List.Perm (sortIdxDesc key l) l := by
  have h := foldl_insert_perm (insertIdxDesc key) (insertIdxDesc_perm key) l []
  simpa [sortIdxDesc] using h

theorem insertDescQ_perm (x : ℚ) : ∀ l : List ℚ, List.Perm (insertDescQ x l) (x :: l)
  | [] => List.Perm.refl _
  | y :: rest => by
      rw [insertDescQ]
      split
      · exact List.Perm.refl _
      · exact ((insertDescQ_perm x rest).cons y).trans (List.Perm.swap x y rest)

theorem sortDescQ_perm (l : List ℚ) : List.Perm (sortDescQ l) l := by
  have h := foldl_insert_perm insertDescQ insertDescQ_perm l []
  simpa [sortDescQ] using h

theorem insertDescQ_pairwise (x : ℚ) :
    ∀ l : List ℚ, l.Pairwise (· ≥ ·) → (insertDescQ x l).Pairwise (· ≥ ·)
  | [], _ => by simp [insertDescQ]
  | y :: rest, h => by
      obtain ⟨hy, hrest⟩ := List.pairwise_cons.mp h
      rw [insertDescQ]
      split
      · rename_i hyx
        refine List.pairwise_cons.mpr ⟨?_, h⟩
        intro b hb
        rcases List.mem_cons.mp hb with rfl | hb'
        · exact le_of_lt hyx
        · exact le_trans (hy b hb') (le_of_lt hyx)
      · rename_i hyx
        refine List.pairwise_cons.mpr ⟨?_, insertDescQ_pairwise x rest hrest⟩
        intro b hb
        rcases List.mem_cons.mp ((insertDescQ_perm x rest).mem_iff.mp hb) with rfl | hb'
        · exact not_lt.mp hyx
        · exact hy b hb'

theorem sortDescQ_pairwise (l : List ℚ) : (sortDescQ l).Pairwise (· ≥ ·) := by
  rw [sortDescQ]
  have : ∀ (l acc : List ℚ), acc.Pairwise (· ≥ ·) →
      (l.foldl (fun a x => insertDescQ x a) acc).Pairwise (· ≥ ·) := by
    intro l
    induction l with
    | nil => intro acc h; simpa using h
    | cons x l' ih =>
        intro acc h
        rw [List.foldl_cons]
        exact ih _ (insertDescQ_pairwise x acc h)
  exact this l [] List.Pairwise.nil

theorem map_getD_range (l : List ℤ) :
    (List.range l.length).map (fun i => l.getD i 0) = l := by
  induction l with
  | nil => rfl
  | cons a t ih =>
      rw [List.length_cons, List.range_succ_eq_map, List.map_cons, List.map_map]
      have : ((fun i => (a :: t).getD i 0) ∘ Nat.succ) = fun i => t.getD i 0 := by
        funext i
        simp
      rw [this, ih]
      rfl

theorem sortedPrecList_perm (cfg : ReconfConfig) :
    List.Perm (sortedPrecList cfg) cfg.acc_list := by
  rw [sortedPrecList]
  refine ((sortIdxDesc_perm _ _).map _).trans ?_
  rw [map_getD_range]

theorem sortedPrecList_length (cfg : ReconfConfig) :
    (sortedPrecList cfg).length = cfg.acc_list.length :=
  (sortedPrecList_perm cfg).length_eq

theorem sortedPrecList_nodup (cfg : ReconfConfig) (h : cfg.acc_list.Nodup) :
    (sortedPrecList cfg).Nodup :=
  ((sortedPrecList_perm cfg).nodup_iff).mpr h

theorem sortedVddList_length (cfg : ReconfConfig) :
    (sortedVddList cfg).length = cfg.vdd_list.length :=
  (sortDescQ_perm cfg.vdd_list).length_eq

theorem sortedVddList_pairwise (cfg : ReconfConfig) :
    (sortedVddList cfg).Pairwise (· ≥ ·) :=
  sortDescQ_pairwise cfg.vdd_list

/-! ### Scenario-table lemmas -/

theorem scenTableOf_nil (as : List ℤ) :
    scenTableOf as [] = as.map (fun a => (a, none)) := by
  simp [scenTableOf]

theorem scenTableOf_cons (a : ℤ) (as : List ℤ) (c : AxScenario)
    (cs : List AxScenario) :
    scenTableOf (a :: as) (c :: cs) = (a, some c) :: scenTableOf as cs := by
  simp [scenTableOf]

theorem scenTableOf_filterMap :
    ∀ (cs : List AxScenario) (as : List ℤ), cs.length ≤ as.length →
      (scenTableOf as cs).filterMap Prod.snd = cs := by
  intro cs
  induction cs with
  | nil =>
      intro as _
      rw [scenTableOf_nil, List.filterMap_map]
      exact List.filterMap_eq_nil.mpr (fun a _ => rfl)
  | cons c cs' ih =>
      intro as hlen
      cases as with
      | nil => simp at hlen
      | cons a as' =>
          rw [scenTableOf_cons, List.filterMap_cons]
          simp only [Option.some.injEq]
          rw [ih as' (by simpa using hlen)]

theorem scenTableOf_full (as : List ℤ) (cs : List AxScenario)
    (h : cs.length = as.length) :
    scenTableOf as cs = as.zip (cs.map some) := by
  rw [scenTableOf, h, List.take_length, List.drop_length]
  simp

theorem dictSet_cons_ne {K V : Type} [DecidableEq K] (p : K × V)
    (d : List (K × V)) (k : K) (v : V) (h : p.1 ≠ k) :
    dictSet (p :: d) k v = p :: dictSet d k v := by
  have hcons : dictHas (p :: d) k = dictHas d k := by
    simp [dictHas, List.any_cons, h]
  by_cases hd : dictHas d k = true
  · rw [dictSet, if_pos (by rw [hcons]; exact hd), List.map_cons, if_neg h,
      dictSet, if_pos hd]
  · have hd' : dictHas d k = false := by simpa using hd
    rw [dictSet, hcons, hd', if_neg (by simp), List.cons_append,
      dictSet, hd', if_neg (by simp)]

theorem list_getD_mem (l : List ℤ) (i : ℕ) (h : i < l.length) :
    l.getD i 0 ∈ l := by
  rw [List.getD_eq_getElem l 0 h]
  exact l.getElem_mem h

theorem dictSet_scenTableOf :
    ∀ (cs : List AxScenario) (as : List ℤ) (sc : AxScenario),
      as.Nodup → cs.length < as.length →
      dictSet (scenTableOf as cs) (as.getD cs.length 0) (some sc)
        = scenTableOf as (cs ++ [sc]) := by
  intro cs
  induction cs with
  | nil =>
      intro as sc hnd hlen
      cases as with
      | nil => simp at hlen
      | cons a as' =>
          rw [scenTableOf_nil]
          have hgd : (a :: as').getD ([] : List AxScenario).length 0 = a := rfl
          rw [hgd, List.map_cons]
          have hhas : dictHas ((a, (none : Option AxScenario)) ::
              as'.map (fun a => (a, none))) a = true := by
            simp [dictHas, List.any_cons]
          rw [dictSet, if_pos hhas, List.map_cons, if_pos rfl]
          have hmap : (as'.map (fun a => (a, (none : Option AxScenario)))).map
              (fun p => if p.1 = a then (a, some sc) else p)
              = as'.map (fun a => (a, none)) := by
            rw [List.map_map]
            refine List.map_congr_left (fun b hb => ?_)
            have hba : b ≠ a := by
              intro he
              exact (List.nodup_cons.mp hnd).1 (he ▸ hb)
            simp [hba]
          rw [hmap]
          show _ = scenTableOf (a :: as') ([] ++ [sc])
          rw [List.nil_append, scenTableOf_cons, scenTableOf_nil]
  | cons c cs' ih =>
      intro as sc hnd hlen
      cases as with
      | nil => simp at hlen
      | cons a as' =>
          have hlen' : cs'.length < as'.length := by simpa using hlen
          have hgd : (a :: as').getD (cs'.length + 1) 0 = as'.getD cs'.length 0 := by
            simp
          rw [scenTableOf_cons, List.length_cons, hgd]
          have hkey : as'.getD cs'.length 0 ≠ a := by
            intro he
            exact (List.nodup_cons.mp hnd).1 (he ▸ list_getD_mem as' cs'.length hlen')
          rw [dictSet_cons_ne ((a, some c) : ℤ × Option AxScenario) _ _ _ (Ne.symm hkey)]
          rw [ih as' sc (List.nodup_cons.mp hnd).2 hlen']
          rw [List.cons_append, scenTableOf_cons]

/-! ### Fold lemmas for building tables -/

theorem foldl_dictSet_fresh {K V : Type} [DecidableEq K] :
    ∀ (ps : List (K × V)) (d : List (K × V)),
      (∀ p ∈ ps, dictHas d p.1 = false) → (ps.map Prod.fst).Nodup →
      ps.foldl (fun d p => dictSet d p.1 p.2) d = d ++ ps := by
  intro ps
  induction ps with
  | nil => intro d _ _; simp
  | cons p ps' ih =>
      intro d hfresh hnd
      rw [List.foldl_cons, dictSet_fresh p.2 (hfresh p (List.mem_cons_self p ps'))]
      rw [List.map_cons] at hnd
      have hnd' := List.nodup_cons.mp hnd
      have hfresh' : ∀ q ∈ ps', dictHas (d ++ [(p.1, p.2)]) q.1 = false := by
        intro q hq
        rw [dictHas_append, hfresh q (List.mem_cons_of_mem p hq), dictHas_single,
          Bool.false_or]
        exact decide_eq_false (fun he => hnd'.1 (he ▸ List.mem_map.mpr ⟨q, hq, rfl⟩))
      rw [ih (d ++ [(p.1, p.2)]) hfresh' hnd'.2, List.append_assoc]
      rfl

theorem scenTable0_eq (as : List ℤ) (h : as.Nodup) :
    as.foldl (fun d a => dictSet d a none) []
      = scenTableOf as ([] : List AxScenario) := by
  rw [scenTableOf_nil]
  have h1 : as.foldl (fun d a => dictSet d a none) []
      = (as.map (fun a => (a, (none : Option AxScenario)))).foldl
          (fun d p => dictSet d p.1 p.2) [] := by
    rw [List.foldl_map]
  rw [h1, foldl_dictSet_fresh (as.map (fun a => (a, (none : Option AxScenario)))) []
    (fun p _ => rfl) (by
      rw [List.map_map]
      exact (List.map_id' as).symm ▸ h)]
  simp

theorem zip_foldl_dictSet (as : List ℤ) (cs : List ℚ) (h : as.Nodup)
    (hlen : as.length ≤ cs.length) :
    (as.zip cs).foldl (fun d p => dictSet d p.1 p.2) [] = as.zip cs := by
  rw [foldl_dictSet_fresh (as.zip cs) [] (fun p _ => rfl) (by
    rw [List.map_fst_zip as cs hlen]
    exact h)]
  simp

/-! ### Reading the final tables -/

theorem entriesFold_cons (a : ℤ) (as : List ℤ) (pt : List (ℤ × ℚ))
    (st : List (ℤ × Option AxScenario)) :
    entriesFold (a :: as) pt st
      = match entriesFold as pt st, dictGet pt a, dictGet st a with
        | some rs, some p, some (some s) => some ((a, p, s) :: rs)
        | _, _, _ => none := rfl

theorem entriesFold_ext :
    ∀ (as : List ℤ) (pt₁ pt₂ : List (ℤ × ℚ))
      (st₁ st₂ : List (ℤ × Option AxScenario)),
      (∀ a ∈ as, dictGet pt₁ a = dictGet pt₂ a) →
      (∀ a ∈ as, dictGet st₁ a = dictGet st₂ a) →
      entriesFold as pt₁ st₁ = entriesFold as pt₂ st₂ := by
  intro as
  induction as with
  | nil => intro _ _ _ _ _ _; rfl
  | cons a as' ih =>
      intro pt₁ pt₂ st₁ st₂ hpt hst
      rw [entriesFold_cons, entriesFold_cons,
        ih pt₁ pt₂ st₁ st₂ (fun b hb => hpt b (List.mem_cons_of_mem a hb))
          (fun b hb => hst b (List.mem_cons_of_mem a hb)),
        hpt a (List.mem_cons_self a as'), hst a (List.mem_cons_self a as')]

theorem entriesFold_zip :
    ∀ (as : List ℤ) (cs : List ℚ) (ss : List AxScenario),
      as.Nodup → as.length = cs.length → as.length = ss.length →
      entriesFold as (as.zip cs) (as.zip (ss.map some))
        = some (as.zip (cs.zip ss)) := by
  intro as
  induction as with
  | nil => intro cs ss _ _ _; rfl
  | cons a as' ih =>
      intro cs ss hnd hc hs
      cases cs with
      | nil => simp at hc
      | cons c cs' =>
          cases ss with
          | nil => simp at hs
          | cons s ss' =>
              have hnd' := List.nodup_cons.mp hnd
              rw [List.zip_cons_cons, List.map_cons, List.zip_cons_cons,
                List.zip_cons_cons, List.zip_cons_cons, entriesFold_cons]
              have hext := entriesFold_ext as'
                ((a, c) :: as'.zip cs') (as'.zip cs')
                ((a, some s) :: as'.zip (ss'.map some)) (as'.zip (ss'.map some))
                (fun b hb => dictGet_cons_ne _ c (fun he => hnd'.1 (he ▸ hb)))
                (fun b hb => dictGet_cons_ne _ (some s) (fun he => hnd'.1 (he ▸ hb)))
              rw [hext, ih cs' ss' hnd'.2 (by simpa using hc) (by simpa using hs),
                dictGet_cons_eq, dictGet_cons_eq]

theorem pairwise_ge_getD (l : List ℚ) (h : l.Pairwise (· ≥ ·))
    (i j : ℕ) (hij : i ≤ j) (hj : j < l.length) : l.getD j 0 ≤ l.getD i 0 := by
  rcases eq_or_lt_of_le hij with rfl | hlt
  · exact le_refl _
  · have hi : i < l.length := lt_trans hlt hj
    rw [List.getD_eq_get l 0 hj, List.getD_eq_get l 0 hi]
    exact List.pairwise_iff_get.mp h ⟨i, hi⟩ ⟨j, hj⟩ hlt

/-! ### Backend-call traces and cumulative blocks -/

theorem dcCallsOf_cons_call (s : List AxScenario) (effs : List Effect) :
    dcCallsOf (Effect.dcCall s :: effs) = s :: dcCallsOf effs := rfl

theorem dcCallsOf_append (a b : List Effect) :
    dcCallsOf (a ++ b) = dcCallsOf a ++ dcCallsOf b :=
  List.filterMap_append a b _

theorem dcCallsOf_map_call (pre : List AxScenario) (scs : List AxScenario) :
    dcCallsOf (scs.map (fun sc => Effect.dcCall (pre ++ [sc])))
      = scs.map (fun sc => pre ++ [sc]) := by
  induction scs with
  | nil => rfl
  | cons sc rest ih => rw [List.map_cons, List.map_cons, dcCallsOf_cons_call, ih]

theorem cumulativeBlocks_cons (committed : List AxScenario) (k0 : ℕ)
    (ts : List AxScenario) (trials : List (List AxScenario)) :
    cumulativeBlocks committed k0 (ts :: trials)
      = ts.map (fun sc => committed.take k0 ++ [sc])
        ++ cumulativeBlocks committed (k0 + 1) trials := by
  rw [cumulativeBlocks, cumulativeBlocks, List.length_cons, List.range'_succ,
    List.zip_cons_cons, List.flatMap_cons]

/-! ### The descent-loop invariant -/

theorem descend_spec (dc : List AxScenario → List ℚ × Bool) (w : List ℚ)
    (accepted : List AxScenario) (acc : ℤ) (cm : Option ℚ)
    (mode : Option (List (String × ℤ))) (vdd' : List ℚ) :
    ∀ (ids : List ℕ) (st : DescentState),
      (∀ i ∈ ids, i < vdd'.length) →
      st.curr_vdd_id < vdd'.length →
      st.curr_scenario = ⟨acc, vdd'.getD st.curr_vdd_id 0, cm, mode⟩ →
      st.curr_power = (dc (accepted ++ [st.curr_scenario])).1 →
      (∀ i ∈ ids, st.curr_vdd_id ≤ i) →
      ids.Pairwise (· < ·) →
      st.curr_vdd_id ≤ (descend dc w accepted acc cm mode vdd' st ids).1.curr_vdd_id ∧
      (descend dc w accepted acc cm mode vdd' st ids).1.curr_vdd_id < vdd'.length ∧
      (descend dc w accepted acc cm mode vdd' st ids).1.curr_scenario
        = ⟨acc, vdd'.getD (descend dc w accepted acc cm mode vdd' st ids).1.curr_vdd_id 0,
           cm, mode⟩ ∧
      (descend dc w accepted acc cm mode vdd' st ids).1.curr_power
        = (dc (accepted ++ [(descend dc w accepted acc cm mode vdd' st ids).1.curr_scenario])).1 ∧
      (∃ scs : List AxScenario,
        (descend dc w accepted acc cm mode vdd' st ids).2
          = scs.map (fun sc => Effect.dcCall (accepted ++ [sc]))) := by
  intro ids
  induction ids with
  | nil =>
      intro st _ hvid hscen hpow _ _
      rw [descend]
      exact ⟨le_refl _, hvid, hscen, hpow, [], rfl⟩
  | cons i rest ih =>
      intro st hids hvid hscen hpow hmono hpw
      rw [descend]
      dsimp only
      split
      · rename_i hcond
        have hi : i < vdd'.length := hids i (List.mem_cons_self i rest)
        have hpw' := List.pairwise_cons.mp hpw
        have hspec := ih ⟨(dc (accepted ++ [⟨acc, vdd'.getD i 0, cm, mode⟩])).1,
            weighted_total_power w (dc (accepted ++ [⟨acc, vdd'.getD i 0, cm, mode⟩])).1,
            ⟨acc, vdd'.getD i 0, cm, mode⟩, i⟩
          (fun j hj => hids j (List.mem_cons_of_mem i hj))
          hi rfl rfl
          (fun j hj => le_of_lt (hpw'.1 j hj))
          hpw'.2
        obtain ⟨scs, hscs⟩ := hspec.2.2.2.2
        refine ⟨le_trans (hmono i (List.mem_cons_self i rest)) hspec.1,
          hspec.2.1, hspec.2.2.1, hspec.2.2.2.1,
          ⟨acc, vdd'.getD i 0, cm, mode⟩ :: scs, ?_⟩
        rw [List.map_cons, ← hscs]
      · exact ⟨le_refl _, hvid, hscen, hpow,
          [⟨acc, vdd'.getD i 0, cm, mode⟩], rfl⟩

/-! ### The outer per-precision loop invariant -/

theorem outerLoop_spec (dc : List AxScenario → List ℚ × Bool) (w : List ℚ)
    (hok : ∀ s, (dc s).2 = true)
    (acc' : List ℤ) (hnd : acc'.Nodup)
    (vdd' : List ℚ) (hsort : vdd'.Pairwise (· ≥ ·))
    (cms : List (Option ℚ)) (mi : Option (List String))
    (mv : Option (List (List ℤ))) :
    ∀ (fuel k : ℕ) (committed : List AxScenario) (curr_vdd_id : ℕ)
      (cp₀ : Option (List ℚ)),
      committed.length = k → 1 ≤ k → k + fuel = acc'.length →
      curr_vdd_id < vdd'.length →
      (committed.map AxScenario.vdd).Chain' (· ≥ ·) →
      committed.getLast?.map AxScenario.vdd = some (vdd'.getD curr_vdd_id 0) →
      ∃ (committedF : List AxScenario) (vidF : ℕ) (effs : List Effect)
        (cpF : Option (List ℚ)),
        outerLoop dc acc' vdd' cms mi mv w (List.range' k fuel)
            (scenTableOf acc' committed) curr_vdd_id cp₀
          = (effs, Except.ok (scenTableOf acc' committedF, vidF, cpF)) ∧
        committed <+: committedF ∧
        committedF.length = acc'.length ∧
        ((committedF.map AxScenario.vdd).Chain' (· ≥ ·)) ∧
        (∀ e ∈ effs, ∃ j sc, 1 ≤ j ∧
            e = Effect.dcCall (committedF.take j ++ [sc])) ∧
        (∃ trials : List (List AxScenario),
          trials.length = fuel ∧ (∀ ts ∈ trials, ts ≠ []) ∧
          dcCallsOf effs = cumulativeBlocks committedF k trials) ∧
        (fuel = 0 → cpF = cp₀ ∧ committedF = committed) ∧
        (0 < fuel → cpF = some ((dc committedF).1)) := by
  intro fuel
  induction fuel with
  | zero =>
      intro k committed curr_vdd_id cp₀ hlen hk1 hkf hvid hchain hlast
      refine ⟨committed, curr_vdd_id, [], cp₀, rfl, List.prefix_refl _,
        by omega, hchain, ?_,
        ⟨[], rfl, fun ts hts => absurd hts (List.not_mem_nil ts), rfl⟩,
        fun _ => ⟨rfl, rfl⟩, fun h => absurd h (lt_irrefl 0)⟩
      intro e he
      exact absurd he (List.not_mem_nil e)
  | succ f ihf =>
      intro k committed curr_vdd_id cp₀ hlen hk1 hkf hvid hchain hlast
      have hkn : k < acc'.length := by omega
      have hacc : (scenTableOf acc' committed).filterMap Prod.snd = committed :=
        scenTableOf_filterMap committed acc' (by omega)
      have hrange : List.range' k (f + 1) = k :: List.range' (k + 1) f := rfl
      rw [hrange, outerLoop]
      dsimp only
      rw [hacc, hok, if_pos rfl]
      have hvdd_le : curr_vdd_id + 1 ≤ vdd'.length := hvid
      have hmem : ∀ i ∈ List.range' (curr_vdd_id + 1)
          (vdd'.length - (curr_vdd_id + 1)), curr_vdd_id + 1 ≤ i ∧ i < vdd'.length := by
        intro i hi
        rw [List.mem_range'_1] at hi
        exact ⟨hi.1, by omega⟩
      have hdspec := descend_spec dc w committed (acc'.getD k 0) (cms.getD k none)
        (create_mode mi mv k) vdd'
        (List.range' (curr_vdd_id + 1) (vdd'.length - (curr_vdd_id + 1)))
        ⟨(dc (committed ++ [⟨acc'.getD k 0, vdd'.getD curr_vdd_id 0, cms.getD k none,
            create_mode mi mv k⟩])).1,
         weighted_total_power w (dc (committed ++ [⟨acc'.getD k 0,
            vdd'.getD curr_vdd_id 0, cms.getD k none, create_mode mi mv k⟩])).1,
         ⟨acc'.getD k 0, vdd'.getD curr_vdd_id 0, cms.getD k none,
            create_mode mi mv k⟩, curr_vdd_id⟩
        (fun i hi => (hmem i hi).2) hvid rfl rfl
        (fun i hi => le_trans (Nat.le_succ _) (hmem i hi).1)
        (List.pairwise_lt_range' _ _)
      obtain ⟨hd1, hd2, hd3, hd4, hd5⟩ := hdspec
      set dres := descend dc w committed (acc'.getD k 0) (cms.getD k none)
        (create_mode mi mv k) vdd'
        ⟨(dc (committed ++ [⟨acc'.getD k 0, vdd'.getD curr_vdd_id 0, cms.getD k none,
            create_mode mi mv k⟩])).1,
         weighted_total_power w (dc (committed ++ [⟨acc'.getD k 0,
            vdd'.getD curr_vdd_id 0, cms.getD k none, create_mode mi mv k⟩])).1,
         ⟨acc'.getD k 0, vdd'.getD curr_vdd_id 0, cms.getD k none,
            create_mode mi mv k⟩, curr_vdd_id⟩
        (List.range' (curr_vdd_id + 1) (vdd'.length - (curr_vdd_id + 1))) with hdres
      obtain ⟨scs, hscs⟩ := hd5
      have hset : dictSet (scenTableOf acc' committed) (acc'.getD k 0)
          (some dres.1.curr_scenario)
          = scenTableOf acc' (committed ++ [dres.1.curr_scenario]) := by
        rw [← hlen]
        exact dictSet_scenTableOf committed acc' dres.1.curr_scenario hnd (by omega)
      rw [hset]
      have hchain' : ((committed ++ [dres.1.curr_scenario]).map
          AxScenario.vdd).Chain' (· ≥ ·) := by
        rw [List.map_append, List.chain'_append]
        refine ⟨hchain, List.chain'_singleton _, ?_⟩
        intro x hx y hy
        rw [List.getLast?_map] at hx
        simp only [List.map_cons, List.map_nil, List.head?_cons,
          Option.mem_def, Option.some.injEq] at hy
        rw [Option.mem_def, hlast] at hx
        have hx' : x = vdd'.getD curr_vdd_id 0 := by
          injection hx with hx''
          exact hx''.symm
        subst hx'
        subst hy
        rw [hd3]
        exact pairwise_ge_getD vdd' hsort curr_vdd_id dres.1.curr_vdd_id hd1 hd2
      have hlast' : (committed ++ [dres.1.curr_scenario]).getLast?.map
          AxScenario.vdd = some (vdd'.getD dres.1.curr_vdd_id 0) := by
        rw [List.getLast?_concat, Option.map_some', hd3]
      have hihf := ihf (k + 1) (committed ++ [dres.1.curr_scenario])
        dres.1.curr_vdd_id (some dres.1.curr_power)
        (by rw [List.length_append, hlen]; rfl) (by omega) (by omega)
        hd2 hchain' hlast'
      obtain ⟨committedF, vidF, effs', cpF, heq, hpre, hlenF, hchainF, heffs',
        hblocks', hf0, hfpos⟩ := hihf
      obtain ⟨trialsr, htl, htne, htb⟩ := hblocks'
      rw [heq]
      have hpre' : committed ++ [dres.1.curr_scenario] <+: committedF := hpre
      have hpre0 : committed <+: committedF :=
        (List.prefix_append committed [dres.1.curr_scenario]).trans hpre
      have htake : committedF.take k = committed := by
        rw [← hlen]
        exact (List.prefix_iff_eq_take.mp hpre0).symm
      refine ⟨committedF, vidF,
        Effect.dcCall (committed ++ [⟨acc'.getD k 0, vdd'.getD curr_vdd_id 0,
          cms.getD k none, create_mode mi mv k⟩]) :: dres.2 ++ effs', cpF,
        rfl, hpre0, hlenF, hchainF, ?_, ?_, ?_, ?_⟩
      · intro e he
        rcases List.mem_cons.mp he with rfl | he'
        · exact ⟨k, ⟨acc'.getD k 0, vdd'.getD curr_vdd_id 0, cms.getD k none,
            create_mode mi mv k⟩, hk1, by rw [htake]⟩
        · rcases List.mem_append.mp he' with he'' | he''
          · rw [hscs] at he''
            obtain ⟨sc, -, rfl⟩ := List.mem_map.mp he''
            exact ⟨k, sc, hk1, by rw [htake]⟩
          · exact heffs' e he''
      · refine ⟨(⟨acc'.getD k 0, vdd'.getD curr_vdd_id 0, cms.getD k none,
            create_mode mi mv k⟩ :: scs) :: trialsr, ?_, ?_, ?_⟩
        · rw [List.length_cons, htl]
        · intro ts hts
          rcases List.mem_cons.mp hts with rfl | hts'
          · exact List.cons_ne_nil _ _
          · exact htne ts hts'
        · rw [List.cons_append, dcCallsOf_cons_call, dcCallsOf_append, hscs,
            dcCallsOf_map_call, cumulativeBlocks_cons, List.map_cons, htake, htb,
            List.cons_append]
      · intro h
        exact absurd h (Nat.succ_ne_zero f)
      · intro _
        rcases Nat.eq_zero_or_pos f with rfl | hfpos'
        · obtain ⟨hcp, hcf⟩ := hf0 rfl
          rw [hcp, hcf, hd4]
        · exact hfpos hfpos'

/-! ### The end-to-end behaviour of `run` against a compliant backend -/

theorem run_spec (dc : List AxScenario → List ℚ × Bool) (cfg : ReconfConfig)
    (wt : Bool)
    (hok : ∀ s, (dc s).2 = true)
    (hlen : ∀ s, ((dc s).1).length = s.length)
    (hnd : cfg.acc_list.Nodup)
    (h2 : 2 ≤ cfg.acc_list.length)
    (hvdd : cfg.vdd_list ≠ []) :
    ∃ (committedF : List AxScenario) (effs : List Effect),
      run dc cfg wt
        = (effs, Except.ok (((dc committedF).1).zip committedF)) ∧
      committedF.length = cfg.acc_list.length ∧
      ((committedF.map AxScenario.vdd).Chain' (· ≥ ·)) ∧
      (effs.filter isNominalCall).length = 1 ∧
      (∀ e ∈ effs, ∀ s, e = Effect.dcCall s →
        ∃ j sc, s = committedF.take j ++ [sc]) ∧
      (∃ trials : List (List AxScenario),
        trials.length = cfg.acc_list.length - 1 ∧ (∀ ts ∈ trials, ts ≠ []) ∧
        dcCallsOf effs
          = cumulativeBlocks committedF 0 ([nomScenario cfg] :: trials)) := by
  have hnd' : (sortedPrecList cfg).Nodup := sortedPrecList_nodup cfg hnd
  have hlenacc : (sortedPrecList cfg).length = cfg.acc_list.length :=
    sortedPrecList_length cfg
  have hv0 : 0 < (sortedVddList cfg).length := by
    rw [sortedVddList_length]
    exact List.length_pos.mpr hvdd
  obtain ⟨committedF, vidF, effs', cpF, heq, hpre, hlenF, hchainF, heffs,
      hblocks, hf0, hfpos⟩ :=
    outerLoop_spec dc cfg.weights hok (sortedPrecList cfg) hnd'
      (sortedVddList cfg) (sortedVddList_pairwise cfg) cfg.clock_multipliers
      cfg.mode_inputs (sortedModeValues cfg)
      ((sortedPrecList cfg).length - 1) 1 [nomScenario cfg] 0 none
      rfl (le_refl 1) (by omega) hv0 (by simp) rfl
  have hcp : cpF = some ((dc committedF).1) := hfpos (by omega)
  have hcplen : ((dc committedF).1).length = (sortedPrecList cfg).length := by
    rw [hlen, hlenF]
  subst hcp
  -- evaluate the body of `run`
  have hds := dictSet_scenTableOf [] (sortedPrecList cfg) (nomScenario cfg)
    hnd' (by simp only [List.length_nil]; omega)
  simp only [List.length_nil, List.nil_append] at hds
  have hfm : (scenTableOf (sortedPrecList cfg)
      ([] : List AxScenario)).filterMap Prod.snd = [] :=
    scenTableOf_filterMap [] _ (by simp only [List.length_nil]; omega)
  have hpt : ((sortedPrecList cfg).zip ((dc committedF).1)).foldl
      (fun d p => dictSet d p.1 p.2) []
      = (sortedPrecList cfg).zip ((dc committedF).1) :=
    zip_foldl_dictSet _ _ hnd' (by omega)
  have hstf : scenTableOf (sortedPrecList cfg) committedF
      = (sortedPrecList cfg).zip (committedF.map some) :=
    scenTableOf_full _ _ (by omega)
  have hef : entriesFold (sortedPrecList cfg)
      ((sortedPrecList cfg).zip ((dc committedF).1))
      ((sortedPrecList cfg).zip (committedF.map some))
      = some ((sortedPrecList cfg).zip (((dc committedF).1).zip committedF)) :=
    entriesFold_zip _ _ _ hnd' (by omega) (by omega)
  have hsnd : ((sortedPrecList cfg).zip
      (((dc committedF).1).zip committedF)).map (fun t => t.2)
      = ((dc committedF).1).zip committedF := by
    apply List.map_snd_zip
    rw [List.length_zip]
    omega
  refine ⟨committedF,
    Effect.dcCall [nomScenario cfg] :: effs' ++
      ((if wt then [Effect.writeTable
          (((sortedPrecList cfg).zip (((dc committedF).1).zip committedF)).map
            (fun t => (t.1, t.2.1, t.2.2.vdd)))] else []) ++
        [Effect.copyNetlist, Effect.copySdc, Effect.copySpef]), ?_, ?_, ?_, ?_, ?_,
    ?_⟩
  · simp only [run]
    rw [scenTable0_eq _ hnd', hfm, List.nil_append, hok, if_pos rfl, hds, heq]
    dsimp only
    rw [hpt, hstf, hef]
    dsimp only
    rw [hsnd]
  · rw [hlenF, hlenacc]
  · exact hchainF
  · have hpos : isNominalCall (Effect.dcCall [nomScenario cfg]) = true := rfl
    have h1 : effs'.filter isNominalCall = [] := by
      rw [List.filter_eq_nil_iff]
      intro e he
      obtain ⟨j, sc, hj, rfl⟩ := heffs e he
      simp only [isNominalCall]
      rw [List.length_append, List.length_take]
      have : min j committedF.length + 1 ≠ 1 := by omega
      simpa using this
    have h2' : (((if wt then [Effect.writeTable
        (((sortedPrecList cfg).zip (((dc committedF).1).zip committedF)).map
          (fun t => (t.1, t.2.1, t.2.2.vdd)))] else []) ++
        [Effect.copyNetlist, Effect.copySdc, Effect.copySpef]).filter
          isNominalCall) = [] := by
      rw [List.filter_eq_nil_iff]
      intro e he
      rw [List.mem_append] at he
      rcases he with he | he
      · split at he
        · rw [List.mem_singleton] at he
          subst he
          simp [isNominalCall]
        · exact absurd he (List.not_mem_nil e)
      · simp only [List.mem_cons, List.mem_nil_iff, or_false] at he
        rcases he with rfl | rfl | rfl <;> simp [isNominalCall]
    simp only [List.filter_cons, List.filter_append, hpos, if_true, h1, h2']
    rfl
  · intro e he s hs
    rcases List.mem_cons.mp he with rfl | he'
    · injection hs with hs'
      exact ⟨0, nomScenario cfg, by rw [← hs']; rfl⟩
    · rcases List.mem_append.mp he' with he'' | he''
      · obtain ⟨j, sc, -, rfl⟩ := heffs e he''
        injection hs with hs'
        exact ⟨j, sc, hs'.symm⟩
      · exfalso
        rw [List.mem_append] at he''
        rcases he'' with he3 | he3
        · split at he3
          · rw [List.mem_singleton] at he3
            subst he3
            exact Effect.noConfusion hs
          · exact absurd he3 (List.not_mem_nil e)
        · simp only [List.mem_cons, List.mem_nil_iff, or_false] at he3
          rcases he3 with rfl | rfl | rfl <;> exact Effect.noConfusion hs
  · obtain ⟨trialsr, htl, htne, htb⟩ := hblocks
    refine ⟨trialsr, ?_, htne, ?_⟩
    · rw [htl, hlenacc]
    · have htail : dcCallsOf ((if wt then [Effect.writeTable
          (((sortedPrecList cfg).zip (((dc committedF).1).zip committedF)).map
            (fun t => (t.1, t.2.1, t.2.2.vdd)))] else []) ++
          [Effect.copyNetlist, Effect.copySdc, Effect.copySpef]) = [] := by
        cases wt <;> rfl
      rw [List.cons_append, dcCallsOf_cons_call, dcCallsOf_append, htail,
        List.append_nil, cumulativeBlocks_cons, htb]
      rfl

/-! ### Single steps of the probe loop -/

theorem descend_cons_accept (dc : List AxScenario → List ℚ × Bool) (w : List ℚ)
    (accepted : List AxScenario) (acc : ℤ) (cm : Option ℚ)
    (mode : Option (List (String × ℤ))) (vdds : List ℚ) (st : DescentState)
    (i : ℕ) (rest : List ℕ)
    (h : (dc (accepted ++ [⟨acc, vdds.getD i 0, cm, mode⟩])).2 = true ∧
      weighted_total_power w (dc (accepted ++ [⟨acc, vdds.getD i 0, cm, mode⟩])).1
        ≤ st.curr_tot_power) :
    descend dc w accepted acc cm mode vdds st (i :: rest)
      = ((descend dc w accepted acc cm mode vdds
            ⟨(dc (accepted ++ [⟨acc, vdds.getD i 0, cm, mode⟩])).1,
             weighted_total_power w
               (dc (accepted ++ [⟨acc, vdds.getD i 0, cm, mode⟩])).1,
             ⟨acc, vdds.getD i 0, cm, mode⟩, i⟩ rest).1,
         Effect.dcCall (accepted ++ [⟨acc, vdds.getD i 0, cm, mode⟩])
           :: (descend dc w accepted acc cm mode vdds
            ⟨(dc (accepted ++ [⟨acc, vdds.getD i 0, cm, mode⟩])).1,
             weighted_total_power w
               (dc (accepted ++ [⟨acc, vdds.getD i 0, cm, mode⟩])).1,
             ⟨acc, vdds.getD i 0, cm, mode⟩, i⟩ rest).2) := by
  rw [descend]
  dsimp only
  rw [if_pos h]

theorem descend_cons_reject (dc : List AxScenario → List ℚ × Bool) (w : List ℚ)
    (accepted : List AxScenario) (acc : ℤ) (cm : Option ℚ)
    (mode : Option (List (String × ℤ))) (vdds : List ℚ) (st : DescentState)
    (i : ℕ) (rest : List ℕ)
    (h : ¬((dc (accepted ++ [⟨acc, vdds.getD i 0, cm, mode⟩])).2 = true ∧
      weighted_total_power w (dc (accepted ++ [⟨acc, vdds.getD i 0, cm, mode⟩])).1
        ≤ st.curr_tot_power)) :
    descend dc w accepted acc cm mode vdds st (i :: rest)
      = (st, [Effect.dcCall (accepted ++ [⟨acc, vdds.getD i 0, cm, mode⟩])]) := by
  rw [descend]
  dsimp only
  rw [if_neg h]

/-- C1: the per-precision voltage descent probes one lower voltage at a time,
accepts it only while the backend is compliant and weighted total power does
not increase, and stops for good — keeping the best state found so far — at
the first probe failing either condition; on the concrete power profile
18, 17, 19, 12 along the descent it commits the voltage with power 17 (the
lowest voltage before the first increase), never probes past the rejection,
and leaves the strictly better voltage with power 12 unexplored. -/
theorem descent_stops_at_first_rejection :
    (∀ (dc : List AxScenario → List ℚ × Bool) (w : List ℚ)
      (accepted : List AxScenario) (acc : ℤ) (cm : Option ℚ)
      (mode : Option (List (String × ℤ))) (vdds : List ℚ) (st : DescentState)
      (i : ℕ) (rest : List ℕ),
      ¬((dc (accepted ++ [⟨acc, vdds.getD i 0, cm, mode⟩])).2 = true ∧
          weighted_total_power w
            (dc (accepted ++ [⟨acc, vdds.getD i 0, cm, mode⟩])).1
            ≤ st.curr_tot_power) →
      descend dc w accepted acc cm mode vdds st (i :: rest)
        = (st, [Effect.dcCall (accepted ++ [⟨acc, vdds.getD i 0, cm, mode⟩])]))
    ∧ (∀ (dc : List AxScenario → List ℚ × Bool) (w : List ℚ)
      (accepted : List AxScenario) (acc : ℤ) (cm : Option ℚ)
      (mode : Option (List (String × ℤ))) (vdds : List ℚ) (st : DescentState)
      (i : ℕ) (rest : List ℕ),
      (dc (accepted ++ [⟨acc, vdds.getD i 0, cm, mode⟩])).2 = true ∧
        weighted_total_power w
          (dc (accepted ++ [⟨acc, vdds.getD i 0, cm, mode⟩])).1
          ≤ st.curr_tot_power →
      descend dc w accepted acc cm mode vdds st (i :: rest)
        = ((descend dc w accepted acc cm mode vdds
              ⟨(dc (accepted ++ [⟨acc, vdds.getD i 0, cm, mode⟩])).1,
               weighted_total_power w
                 (dc (accepted ++ [⟨acc, vdds.getD i 0, cm, mode⟩])).1,
               ⟨acc, vdds.getD i 0, cm, mode⟩, i⟩ rest).1,
           Effect.dcCall (accepted ++ [⟨acc, vdds.getD i 0, cm, mode⟩])
             :: (descend dc w accepted acc cm mode vdds
              ⟨(dc (accepted ++ [⟨acc, vdds.getD i 0, cm, mode⟩])).1,
               weighted_total_power w
                 (dc (accepted ++ [⟨acc, vdds.getD i 0, cm, mode⟩])).1,
               ⟨acc, vdds.getD i 0, cm, mode⟩, i⟩ rest).2))
    ∧ descend dcC1 [1, 1] [⟨8, 10, none, none⟩] 4 none none [10, 9, 8, 7]
        ⟨[10, 8], weighted_total_power [1, 1] [10, 8], ⟨4, 10, none, none⟩, 0⟩
        [1, 2, 3]
      = (⟨[10, 7], weighted_total_power [1, 1] [10, 7], ⟨4, 9, none, none⟩, 1⟩,
         [Effect.dcCall [⟨8, 10, none, none⟩, ⟨4, 9, none, none⟩],
          Effect.dcCall [⟨8, 10, none, none⟩, ⟨4, 8, none, none⟩]])
    ∧ (∀ e ∈ [Effect.dcCall [⟨8, 10, none, none⟩, ⟨4, 9, none, none⟩],
          Effect.dcCall [⟨8, 10, none, none⟩, ⟨4, 8, none, none⟩]],
        e ≠ Effect.dcCall [(⟨8, 10, none, none⟩ : AxScenario), ⟨4, 7, none, none⟩])
    ∧ weighted_total_power [1, 1] (dcC1 [⟨8, 10, none, none⟩, ⟨4, 7, none, none⟩]).1
        < weighted_total_power [1, 1] [10, 7] := by
  refine ⟨descend_cons_reject, descend_cons_accept, ?_, ?_, ?_⟩
  · rw [descend_cons_accept dcC1 [1, 1] [⟨8, 10, none, none⟩] 4 none none
      [10, 9, 8, 7] _ 1 [2, 3] ⟨rfl, by norm_num [dcC1, weighted_total_power]⟩]
    rw [descend_cons_reject dcC1 [1, 1] [⟨8, 10, none, none⟩] 4 none none
      [10, 9, 8, 7] _ 2 [3] (by
        intro hcon
        exact absurd hcon.2 (by norm_num [dcC1, weighted_total_power]))]
    rfl
  · intro e he
    simp only [List.mem_cons, List.mem_nil_iff, or_false] at he
    rcases he with rfl | rfl <;> intro h <;> injection h with h' <;>
      exact absurd h' (by decide)
  · norm_num [dcC1, weighted_total_power]

theorem descent_stops_at_first_rejection_witness :
    ¬((dcC1 ([⟨8, 10, none, none⟩] ++
        [⟨4, ([10, 9, 8, 7] : List ℚ).getD 2 0, none, none⟩])).2 = true ∧
      weighted_total_power [1, 1]
        (dcC1 ([⟨8, 10, none, none⟩] ++
          [⟨4, ([10, 9, 8, 7] : List ℚ).getD 2 0, none, none⟩])).1
        ≤ (⟨[10, 7], weighted_total_power [1, 1] [10, 7], ⟨4, 9, none, none⟩, 1⟩
            : DescentState).curr_tot_power) ∧
    descend dcC1 [1, 1] [⟨8, 10, none, none⟩] 4 none none [10, 9, 8, 7]
        ⟨[10, 7], weighted_total_power [1, 1] [10, 7], ⟨4, 9, none, none⟩, 1⟩ [2, 3]
      = (⟨[10, 7], weighted_total_power [1, 1] [10, 7], ⟨4, 9, none, none⟩, 1⟩,
         [Effect.dcCall ([⟨8, 10, none, none⟩] ++
           [⟨4, ([10, 9, 8, 7] : List ℚ).getD 2 0, none, none⟩])]) ∧
    ((dcC1 ([⟨8, 10, none, none⟩] ++
        [⟨4, ([10, 9, 8, 7] : List ℚ).getD 1 0, none, none⟩])).2 = true ∧
      weighted_total_power [1, 1]
        (dcC1 ([⟨8, 10, none, none⟩] ++
          [⟨4, ([10, 9, 8, 7] : List ℚ).getD 1 0, none, none⟩])).1
        ≤ (⟨[10, 8], weighted_total_power [1, 1] [10, 8], ⟨4, 10, none, none⟩, 0⟩
            : DescentState).curr_tot_power) ∧
    descend dcC1 [1, 1] [⟨8, 10, none, none⟩] 4 none none [10, 9, 8, 7]
        ⟨[10, 8], weighted_total_power [1, 1] [10, 8], ⟨4, 10, none, none⟩, 0⟩
        (1 :: [2, 3])
      = ((descend dcC1 [1, 1] [⟨8, 10, none, none⟩] 4 none none [10, 9, 8, 7]
            ⟨(dcC1 ([⟨8, 10, none, none⟩] ++
                [⟨4, ([10, 9, 8, 7] : List ℚ).getD 1 0, none, none⟩])).1,
             weighted_total_power [1, 1]
               (dcC1 ([⟨8, 10, none, none⟩] ++
                 [⟨4, ([10, 9, 8, 7] : List ℚ).getD 1 0, none, none⟩])).1,
             ⟨4, ([10, 9, 8, 7] : List ℚ).getD 1 0, none, none⟩, 1⟩ [2, 3]).1,
         Effect.dcCall ([⟨8, 10, none, none⟩] ++
             [⟨4, ([10, 9, 8, 7] : List ℚ).getD 1 0, none, none⟩])
           :: (descend dcC1 [1, 1] [⟨8, 10, none, none⟩] 4 none none [10, 9, 8, 7]
            ⟨(dcC1 ([⟨8, 10, none, none⟩] ++
                [⟨4, ([10, 9, 8, 7] : List ℚ).getD 1 0, none, none⟩])).1,
             weighted_total_power [1, 1]
               (dcC1 ([⟨8, 10, none, none⟩] ++
                 [⟨4, ([10, 9, 8, 7] : List ℚ).getD 1 0, none, none⟩])).1,
             ⟨4, ([10, 9, 8, 7] : List ℚ).getD 1 0, none, none⟩, 1⟩ [2, 3]).2) := by
  have hrej : ¬((dcC1 ([⟨8, 10, none, none⟩] ++
      [⟨4, ([10, 9, 8, 7] : List ℚ).getD 2 0, none, none⟩])).2 = true ∧
      weighted_total_power [1, 1]
        (dcC1 ([⟨8, 10, none, none⟩] ++
          [⟨4, ([10, 9, 8, 7] : List ℚ).getD 2 0, none, none⟩])).1
        ≤ (⟨[10, 7], weighted_total_power [1, 1] [10, 7], ⟨4, 9, none, none⟩, 1⟩
            : DescentState).curr_tot_power) := by
    intro hcon
    exact absurd hcon.2 (by norm_num [dcC1, weighted_total_power])
  have hacc : (dcC1 ([⟨8, 10, none, none⟩] ++
      [⟨4, ([10, 9, 8, 7] : List ℚ).getD 1 0, none, none⟩])).2 = true ∧
      weighted_total_power [1, 1]
        (dcC1 ([⟨8, 10, none, none⟩] ++
          [⟨4, ([10, 9, 8, 7] : List ℚ).getD 1 0, none, none⟩])).1
        ≤ (⟨[10, 8], weighted_total_power [1, 1] [10, 8], ⟨4, 10, none, none⟩, 0⟩
            : DescentState).curr_tot_power :=
    ⟨rfl, by norm_num [dcC1, weighted_total_power]⟩
  exact ⟨hrej,
    descent_stops_at_first_rejection.1 dcC1 [1, 1] [⟨8, 10, none, none⟩]
      4 none none [10, 9, 8, 7] _ 2 [3] hrej,
    hacc,
    descent_stops_at_first_rejection.2.1 dcC1 [1, 1] [⟨8, 10, none, none⟩]
      4 none none [10, 9, 8, 7] _ 1 [2, 3] hacc⟩

/-- C2: against an always-compliant backend that returns one power value per
submitted scenario, `run` succeeds, the committed voltages across precisions
in processing order are non-increasing, exactly one backend call carries a
single (nominal) scenario, and the chronological sequence of backend-call
payloads is exactly the concatenation of one nonempty block per precision in
processing order, where every call of the block at position `j` carries all
`j` previously accepted scenarios followed by one trial scenario — so no call
ever omits a previously accepted scenario. -/
theorem run_always_compliant_invariants :
    ∀ (dc : List AxScenario → List ℚ × Bool) (cfg : ReconfConfig) (wt : Bool),
      (∀ s, (dc s).2 = true) →
      (∀ s, ((dc s).1).length = s.length) →
      cfg.acc_list.Nodup → 2 ≤ cfg.acc_list.length → cfg.vdd_list ≠ [] →
      ∃ (effs : List Effect) (res : List (ℚ × AxScenario)),
        run dc cfg wt = (effs, Except.ok res) ∧
        ((res.map (fun pr => pr.2.vdd)).Chain' (· ≥ ·)) ∧
        ((effs.filter isNominalCall).length = 1) ∧
        (∃ trials : List (List AxScenario),
          trials.length = cfg.acc_list.length - 1 ∧
          (∀ ts ∈ trials, ts ≠ []) ∧
          dcCallsOf effs
            = cumulativeBlocks (res.map Prod.snd) 0
                ([nomScenario cfg] :: trials)) := by
  intro dc cfg wt hok hlen hnd h2 hvdd
  obtain ⟨committedF, effs, heq, hlenF, hchain, hcount, hcum, hblocks⟩ :=
    run_spec dc cfg wt hok hlen hnd h2 hvdd
  have hsnd : (((dc committedF).1).zip committedF).map Prod.snd = committedF :=
    List.map_snd_zip _ _ (le_of_eq (hlen _).symm)
  refine ⟨effs, ((dc committedF).1).zip committedF, heq, ?_, hcount, ?_⟩
  · have hcomp : (fun pr : ℚ × AxScenario => pr.2.vdd)
        = (AxScenario.vdd ∘ Prod.snd) := rfl
    rw [hcomp, ← List.map_map, hsnd]
    exact hchain
  · obtain ⟨trials, htl, htne, htb⟩ := hblocks
    exact ⟨trials, htl, htne, by rw [hsnd]; exact htb⟩

theorem run_always_compliant_invariants_witness :
    (∀ s, ((fun s : List AxScenario =>
        ((List.range s.length).map (fun i : ℕ => ((i : ℚ) + 1) * (1/2)), true)) s).2
          = true) ∧
    ((⟨[8, 4, 2], [1, 9/10, 8/10], [none, none, none], none, none, [1, 1, 1]⟩
        : ReconfConfig).acc_list).Nodup ∧
    ∃ (effs : List Effect) (res : List (ℚ × AxScenario)),
      run (fun s => ((List.range s.length).map (fun i : ℕ => ((i : ℚ) + 1) * (1/2)),
          true))
        ⟨[8, 4, 2], [1, 9/10, 8/10], [none, none, none], none, none, [1, 1, 1]⟩
        true = (effs, Except.ok res) ∧
      ((res.map (fun pr => pr.2.vdd)).Chain' (· ≥ ·)) ∧
      ((effs.filter isNominalCall).length = 1) ∧
      (∃ trials : List (List AxScenario),
        trials.length = ((⟨[8, 4, 2], [1, 9/10, 8/10], [none, none, none],
            none, none, [1, 1, 1]⟩ : ReconfConfig).acc_list).length - 1 ∧
        (∀ ts ∈ trials, ts ≠ []) ∧
        dcCallsOf effs
          = cumulativeBlocks (res.map Prod.snd) 0
              ([nomScenario ⟨[8, 4, 2], [1, 9/10, 8/10], [none, none, none],
                  none, none, [1, 1, 1]⟩] :: trials)) :=
  ⟨fun _ => rfl, by decide,
   run_always_compliant_invariants _ _ true (fun _ => rfl)
     (fun s => by rw [List.length_map, List.length_range]) (by decide)
     (by norm_num) (by simp)⟩

/-- C3 fails as stated: in this run the last backend call of the entire run is
the rejected probe of precision 4 at the lower voltage, whose power vector is
`[5, 4]`; the reported table instead carries the powers `[5, 3]` of the last
accepted configuration. -/
theorem power_table_not_from_last_call_counterexample :
    run dcC3 cfgC3 true
      = ([Effect.dcCall [⟨8, 2, none, none⟩],
          Effect.dcCall [⟨8, 2, none, none⟩, ⟨4, 2, none, none⟩],
          Effect.dcCall [⟨8, 2, none, none⟩, ⟨4, 1, none, none⟩],
          Effect.writeTable [(8, 5, 2), (4, 3, 2)],
          Effect.copyNetlist, Effect.copySdc, Effect.copySpef],
         Except.ok [(5, ⟨8, 2, none, none⟩), (3, ⟨4, 2, none, none⟩)]) ∧
    lastDcCall [Effect.dcCall [⟨8, 2, none, none⟩],
        Effect.dcCall [⟨8, 2, none, none⟩, ⟨4, 2, none, none⟩],
        Effect.dcCall [⟨8, 2, none, none⟩, ⟨4, 1, none, none⟩],
        Effect.writeTable [(8, 5, 2), (4, 3, 2)],
        Effect.copyNetlist, Effect.copySdc, Effect.copySpef]
      = some [⟨8, 2, none, none⟩, ⟨4, 1, none, none⟩] ∧
    (dcC3 [⟨8, 2, none, none⟩, ⟨4, 1, none, none⟩]).1 = [5, 4] ∧
    ([(5, (⟨8, 2, none, none⟩ : AxScenario)), (3, ⟨4, 2, none, none⟩)].map
        Prod.fst)
      ≠ (dcC3 [⟨8, 2, none, none⟩, ⟨4, 1, none, none⟩]).1 := by
  refine ⟨?_, rfl, rfl, by decide⟩
  rfl

/-- C3 (amended): for every completing run against a compliant backend, the
reported power table is derived from the power vector the backend returned for
the final accepted cumulative scenario set — the last *accepted* backend call
— which coincides with the last backend call only when no trailing probe was
rejected. -/
theorem power_table_from_final_accepted_call :
    ∀ (dc : List AxScenario → List ℚ × Bool) (cfg : ReconfConfig) (wt : Bool),
      (∀ s, (dc s).2 = true) →
      (∀ s, ((dc s).1).length = s.length) →
      cfg.acc_list.Nodup → 2 ≤ cfg.acc_list.length → cfg.vdd_list ≠ [] →
      ∃ (effs : List Effect) (res : List (ℚ × AxScenario)),
        run dc cfg wt = (effs, Except.ok res) ∧
        res.map Prod.fst = (dc (res.map Prod.snd)).1 := by
  intro dc cfg wt hok hlen hnd h2 hvdd
  obtain ⟨committedF, effs, heq, hlenF, -, -, -, -⟩ :=
    run_spec dc cfg wt hok hlen hnd h2 hvdd
  have hsnd : (((dc committedF).1).zip committedF).map Prod.snd = committedF :=
    List.map_snd_zip _ _ (le_of_eq (hlen _).symm)
  have hfst : (((dc committedF).1).zip committedF).map Prod.fst
      = (dc committedF).1 :=
    List.map_fst_zip _ _ (le_of_eq (hlen _))
  exact ⟨effs, ((dc committedF).1).zip committedF, heq, by rw [hsnd, hfst]⟩

theorem power_table_from_final_accepted_call_witness :
    ((⟨[8, 4, 2], [1, 9/10, 8/10], [none, none, none], none, none, [1, 1, 1]⟩
        : ReconfConfig).vdd_list ≠ []) ∧
    ∃ (effs : List Effect) (res : List (ℚ × AxScenario)),
      run (fun s => ((List.range s.length).map (fun i : ℕ => ((i : ℚ) + 1) * (1/2)),
          true))
        ⟨[8, 4, 2], [1, 9/10, 8/10], [none, none, none], none, none, [1, 1, 1]⟩
        true = (effs, Except.ok res) ∧
      res.map Prod.fst
        = ((fun s : List AxScenario =>
            ((List.range s.length).map (fun i : ℕ => ((i : ℚ) + 1) * (1/2)), true))
              (res.map Prod.snd)).1 :=
  ⟨by simp,
   power_table_from_final_accepted_call _ _ true (fun _ => rfl)
     (fun s => by rw [List.length_map, List.length_range]) (by decide)
     (by norm_num) (by simp)⟩

/-! ### Aborting on nominal non-compliance -/

theorem values_none_foldl (as : List ℤ) :
    ∀ (d : List (ℤ × Option AxScenario)), (∀ p ∈ d, p.2 = none) →
      ∀ p ∈ as.foldl (fun d a => dictSet d a none) d, p.2 = none := by
  induction as with
  | nil => intro d hd; simpa using hd
  | cons a as' ih =>
      intro d hd
      rw [List.foldl_cons]
      refine ih _ ?_
      intro p hp
      rcases mem_dictSet hp with ⟨hp', -⟩ | rfl
      · exact hd p hp'
      · rfl

/-- C5: if the backend reports non-compliance on the nominal scenario, `run`
raises `TimingException` right away: the trace holds the single nominal call
and no report-table write and no netlist/sdc/spef copy ever happens. -/
theorem nominal_noncompliance_aborts :
    ∀ (dc : List AxScenario → List ℚ × Bool) (cfg : ReconfConfig) (wt : Bool),
      cfg.acc_list ≠ [] → cfg.vdd_list ≠ [] →
      (dc [nomScenario cfg]).2 = false →
      run dc cfg wt
        = ([Effect.dcCall [nomScenario cfg]],
           Except.error RunErr.timingNominal) ∧
      (∀ rows, Effect.writeTable rows ∉ (run dc cfg wt).1) ∧
      Effect.copyNetlist ∉ (run dc cfg wt).1 ∧
      Effect.copySdc ∉ (run dc cfg wt).1 ∧
      Effect.copySpef ∉ (run dc cfg wt).1 := by
  intro dc cfg wt _ _ hfail
  have hmain : run dc cfg wt
      = ([Effect.dcCall [nomScenario cfg]], Except.error RunErr.timingNominal) := by
    simp only [run]
    rw [List.filterMap_eq_nil_iff.mpr
      (fun p hp => values_none_foldl _ [] (by simp) p hp)]
    rw [List.nil_append, hfail]
    simp
  refine ⟨hmain, ?_, ?_, ?_, ?_⟩ <;> rw [hmain] <;> simp

theorem nominal_noncompliance_aborts_witness :
    ((⟨[8, 4], [10, 9, 8, 7], [none, none], none, none, [1, 1]⟩
        : ReconfConfig).acc_list ≠ []) ∧
    (((fun _ : List AxScenario => (([] : List ℚ), false))
        [nomScenario ⟨[8, 4], [10, 9, 8, 7], [none, none], none, none, [1, 1]⟩]).2
      = false) ∧
    run (fun _ => ([], false))
        ⟨[8, 4], [10, 9, 8, 7], [none, none], none, none, [1, 1]⟩ true
      = ([Effect.dcCall
            [nomScenario ⟨[8, 4], [10, 9, 8, 7], [none, none], none, none, [1, 1]⟩]],
         Except.error RunErr.timingNominal) :=
  ⟨by simp, rfl,
   (nominal_noncompliance_aborts (fun _ => ([], false))
     ⟨[8, 4], [10, 9, 8, 7], [none, none], none, none, [1, 1]⟩ true
     (by simp) (by simp) rfl).1⟩

/-! ### The single-precision unbound-variable failure -/

/-- C6: with exactly one configured precision, after a compliant nominal call
the per-precision loop never runs, `curr_power` is never bound, and building
the final power table fails with the unbound-variable error instead of
returning the single-entry table. -/
theorem single_precision_name_error :
    ∀ (dc : List AxScenario → List ℚ × Bool) (cfg : ReconfConfig) (wt : Bool)
      (a : ℤ),
      cfg.acc_list = [a] → cfg.vdd_list ≠ [] →
      (dc [nomScenario cfg]).2 = true →
      run dc cfg wt
        = ([Effect.dcCall [nomScenario cfg]], Except.error RunErr.nameError) := by
  intro dc cfg wt a hacc _ hok1
  have hsp : sortedPrecList cfg = [a] := by
    rw [sortedPrecList, hacc]
    rfl
  simp only [run]
  rw [hsp]
  have h1 : List.filterMap Prod.snd
      (List.foldl (fun d x => dictSet d x none)
        ([] : List (ℤ × Option AxScenario)) [a]) = [] := rfl
  rw [h1, List.nil_append, hok1, if_pos rfl]
  rfl

theorem single_precision_name_error_witness :
    ((⟨[8], [1], [none], none, none, [1]⟩ : ReconfConfig).acc_list = [8]) ∧
    (((fun _ : List AxScenario => ([(5 : ℚ)], true))
        [nomScenario ⟨[8], [1], [none], none, none, [1]⟩]).2 = true) ∧
    run (fun _ => ([5], true)) ⟨[8], [1], [none], none, none, [1]⟩ true
      = ([Effect.dcCall [nomScenario ⟨[8], [1], [none], none, none, [1]⟩]],
         Except.error RunErr.nameError) :=
  ⟨rfl, rfl,
   single_precision_name_error (fun _ => ([5], true))
     ⟨[8], [1], [none], none, none, [1]⟩ true 8 rfl (by simp) rfl⟩

/-! ### Weight pairing during the descent -/

theorem zip_take_self {α β : Type} :
    ∀ (l : List α) (l' : List β), l.zip (l'.take l.length) = l.zip l'
  | [], _ => by simp
  | _ :: _, [] => by simp
  | a :: t, b :: t' => by
      rw [List.length_cons, List.take_succ_cons, List.zip_cons_cons,
        List.zip_cons_cons, zip_take_self t t']

theorem spec_pairing_aux :
    ∀ (p : List ℚ) (as : List ℤ) (ws : List ℚ), as.Nodup →
      p.length ≤ as.length → p.length ≤ ws.length →
      ((p.zip (as.map (fun a => ws.getD (as.indexOf a) 1))).map
        (fun ij => ij.1 * ij.2)).sum
        = ((p.zip ws).map (fun ij => ij.1 * ij.2)).sum := by
  intro p
  induction p with
  | nil => intro as ws _ _ _; simp
  | cons x p' ih =>
      intro as ws hnd hla hlw
      cases as with
      | nil => simp at hla
      | cons a as' =>
          cases ws with
          | nil => simp at hlw
          | cons wv ws' =>
              have hidx2 : (wv :: ws').getD ((a :: as').indexOf a) 1 = wv := by
                rw [List.indexOf_cons_self]
                rfl
              have hmap : as'.map
                  (fun b => (wv :: ws').getD ((a :: as').indexOf b) 1)
                  = as'.map (fun b => ws'.getD (as'.indexOf b) 1) := by
                refine List.map_congr_left (fun b hb => ?_)
                have hba : b ≠ a := fun he =>
                  (List.nodup_cons.mp hnd).1 (he ▸ hb)
                rw [List.indexOf_cons_ne _ (Ne.symm hba), List.getD_cons_succ]
              rw [List.map_cons, hidx2, hmap, List.zip_cons_cons,
                List.zip_cons_cons, List.map_cons, List.map_cons, List.sum_cons,
                List.sum_cons,
                ih as' ws' (List.nodup_cons.mp hnd).2 (by simpa using hla)
                  (by simpa using hlw)]

/-- C4 fails as stated: `run` sorts the precision list descending but leaves
the weight list in configuration order, so with configured precisions [2, 8]
and weights [10, 1] the descent metric multiplies the power of precision 8 by
the weight configured for precision 2. -/
theorem weighted_power_weight_misalignment_counterexample :
    sortedPrecList cfgC4 = [8, 2] ∧
    weighted_total_power cfgC4.weights [1, 0] = 10 ∧
    specWeightedTotalPower cfgC4 [1, 0] = 1 ∧
    weighted_total_power cfgC4.weights [1, 0]
      ≠ specWeightedTotalPower cfgC4 [1, 0] := by
  have h1 : sortedPrecList cfgC4 = [8, 2] := by decide
  have h8 : specWeightForPrecision cfgC4 8 = 1 := by decide
  have h2 : specWeightForPrecision cfgC4 2 = 10 := by decide
  have hw : weighted_total_power cfgC4.weights [1, 0] = 10 := by
    norm_num [weighted_total_power, cfgC4]
  have hs : specWeightedTotalPower cfgC4 [1, 0] = 1 := by
    rw [specWeightedTotalPower, h1, List.map_cons, List.map_cons, List.map_nil,
      h8, h2]
    norm_num
  exact ⟨h1, hw, hs, by rw [hw, hs]; norm_num⟩

/-- C4 (amended): the weighted total power pairs the power vector positionally
with the weight list in configuration order (truncating to the shorter); this
equals the sum of each precision's power times the weight configured for that
same precision exactly when the configured precision list is already sorted
descending, i.e. survives the sort unchanged. -/
theorem weighted_power_positional_pairing :
    (∀ w p : List ℚ, weighted_total_power w p
        = ((p.zip w).map (fun ij => ij.1 * ij.2)).sum)
    ∧ (∀ (cfg : ReconfConfig) (p : List ℚ), cfg.acc_list.Nodup →
        sortedPrecList cfg = cfg.acc_list →
        p.length ≤ cfg.acc_list.length → p.length ≤ cfg.weights.length →
        weighted_total_power cfg.weights p = specWeightedTotalPower cfg p) := by
  refine ⟨fun w p => by rw [weighted_total_power, zip_take_self], ?_⟩
  intro cfg p hnd hsorted hla hlw
  rw [specWeightedTotalPower, hsorted]
  rw [weighted_total_power, zip_take_self]
  have hfun : specWeightForPrecision cfg
      = fun a => cfg.weights.getD (cfg.acc_list.indexOf a) 1 := rfl
  rw [hfun]
  exact (spec_pairing_aux p cfg.acc_list cfg.weights hnd hla hlw).symm

theorem weighted_power_positional_pairing_witness :
    ((⟨[8, 4], [1], [none, none], none, none, [2, 3]⟩
        : ReconfConfig).acc_list.Nodup) ∧
    sortedPrecList (⟨[8, 4], [1], [none, none], none, none, [2, 3]⟩
        : ReconfConfig)
      = [8, 4] ∧
    weighted_total_power [2, 3] [1, 1]
      = specWeightedTotalPower
          (⟨[8, 4], [1], [none, none], none, none, [2, 3]⟩ : ReconfConfig)
          [1, 1] :=
  ⟨by decide, by decide,
   weighted_power_positional_pairing.2
     (⟨[8, 4], [1], [none, none], none, none, [2, 3]⟩ : ReconfConfig) [1, 1]
     (by decide) (by decide) (by decide) (by decide)⟩

end Axpy
